import Mathlib

/-!
Verification of the Game of Life simulation core.

This file shallowly embeds the Rust sources of the repository
(`src/logic/board/structure.rs`, `src/logic/board/expansion.rs`,
`src/logic/life_cycle.rs`, `src/logic/prediction.rs`, `src/logic/reset.rs`,
`src/logic/change_state.rs`, `src/config/rules.rs`) into Lean and proves the
specification claims about them.

Conventions of the embedding:
* `usize` becomes `Nat`; Rust's `saturating_sub` is `Nat` subtraction.
* Rust's `Vec<CellState>` becomes a `List CellState` carried together with the
  length invariant `cells.length = width * height`, which the Rust code
  maintains at all times.
* The process-wide configuration singleton (`get_config()`) becomes an explicit
  `GameConfig` argument to every function that reads it.
* A Rust method mutating `self` becomes a function returning the new value
  (paired with the Rust return value where there is one).
* The nested `for` loops that fill a freshly created board cell by cell are
  written as a left fold (`writeAll`) over the row-major coordinate list, with
  one write per loop iteration, in iteration order.
-/

/-- Cell state, from `structure.rs` (`CellState`): a cell is `Dead` or `Alive`. -/
inductive CellState where
  | Dead : CellState
  | Alive : CellState
deriving DecidableEq, Repr, BEq, Inhabited

/-- Default cell state is `Dead` (`impl Default for CellState`). -/
def CellState.default : CellState := CellState.Dead

/-- The board, from `structure.rs` (`Board`): a dense row-major vector of cells
together with its dimensions.  `hsize` is the representation invariant
`cells.len() == width * height` that every `Board` built by the source
maintains (`Board::new` allocates exactly `width * height` cells and all
mutations are index assignments). -/
structure Board where
  cells : List CellState
  width : Nat
  height : Nat
  hsize : cells.length = width * height

/-- `Board::new(width, height)`: a board of all-`Dead` cells. -/
def Board.new (width height : Nat) : Board :=
  ⟨List.replicate (width * height) CellState.Dead, width, height, List.length_replicate _ _⟩

/-- `Board::get_cell`: `Some(state)` when `(x, y)` is in bounds, else `None`.
The in-bounds index lookup `self.cells[y * width + x]` is total thanks to
`hsize`, so `getElem?` returns `some` exactly on the in-bounds cases. -/
def Board.get_cell (b : Board) (x y : Nat) : Option CellState :=
  if x < b.width ∧ y < b.height then b.cells[y * b.width + x]? else none

/-- `Board::set_cell`: writes the cell and returns `true` when in bounds,
otherwise leaves the board unchanged and returns `false`. -/
def Board.set_cell (b : Board) (x y : Nat) (state : CellState) : Board × Bool :=
  if x < b.width ∧ y < b.height then
    (⟨b.cells.set (y * b.width + x) state, b.width, b.height,
      by rw [List.length_set]; exact b.hsize⟩, true)
  else (b, false)

/-- `Board::toggle_cell`: flips Dead and Alive, same bounds contract as
`set_cell`. -/
def Board.toggle_cell (b : Board) (x y : Nat) : Board × Bool :=
  match b.get_cell x y with
  | some current =>
      let new_state := match current with
        | CellState.Dead => CellState.Alive
        | CellState.Alive => CellState.Dead
      b.set_cell x y new_state
  | none => (b, false)

/-- `Board::is_valid_coords`. -/
def Board.is_valid_coords (b : Board) (x y : Nat) : Bool :=
  decide (x < b.width) && decide (y < b.height)

/-- Row-major coordinate list: the iteration order of the nested loops
`for y in 0..height { for x in 0..width { ... } }` and of `Board::iter_cells`
(which enumerates the cell vector in index order). -/
def rowMajor (w h : Nat) : List (Nat × Nat) :=
  (List.range h).flatMap (fun y => (List.range w).map (fun x => (x, y)))

/-- A sequence of cell writes, in order: the body of the nested fill loops. -/
def writeAll (b : Board) (ws : List (Nat × Nat × CellState)) : Board :=
  ws.foldl (fun nb e => (nb.set_cell e.1 e.2.1 e.2.2).1) b

/-- Board size mode, from `rules.rs` (`BoardSizeMode`). -/
inductive BoardSizeMode where
  | Dynamic : BoardSizeMode
  | Static : BoardSizeMode
deriving DecidableEq, Repr

/-- Game configuration, from `rules.rs` (`GameConfig`).  The two
`RangeInclusive<usize>` rule fields are carried as their endpoints.  The
`ui_config` and `randomizer_config` fields are omitted: no embedded operation
reads them. -/
structure GameConfig where
  birth_lo : Nat
  birth_hi : Nat
  survival_lo : Nat
  survival_hi : Nat
  board_size_mode : BoardSizeMode
  max_board_size : Nat
  initial_board_size : Nat
  static_board_size : Nat
  expansion_margin : Nat
  expansion_layers : Nat
  optimization_margin : Nat
deriving DecidableEq, Repr

/-- `GameConfig::default()`: Conway rules B3/S23 and the default sizes. -/
def GameConfig.default : GameConfig :=
  { birth_lo := 3, birth_hi := 3, survival_lo := 2, survival_hi := 3,
    board_size_mode := BoardSizeMode.Dynamic,
    max_board_size := 101, initial_board_size := 9, static_board_size := 21,
    expansion_margin := 2, expansion_layers := 1, optimization_margin := 3 }

/-- `GameConfig::should_birth`: `birth_neighbors.contains(&neighbors)`,
inclusive-range membership. -/
def GameConfig.should_birth (c : GameConfig) (neighbors : Nat) : Bool :=
  decide (c.birth_lo ≤ neighbors) && decide (neighbors ≤ c.birth_hi)

/-- `GameConfig::should_survive`: `survival_neighbors.contains(&neighbors)`. -/
def GameConfig.should_survive (c : GameConfig) (neighbors : Nat) : Bool :=
  decide (c.survival_lo ≤ neighbors) && decide (neighbors ≤ c.survival_hi)

/-- `GameConfig::can_expand`: the board grown by `2·layers` per axis still fits
within `max_board_size`. -/
def GameConfig.can_expand (c : GameConfig) (current_width current_height layers : Nat) : Bool :=
  decide (current_width + 2 * layers ≤ c.max_board_size) &&
  decide (current_height + 2 * layers ≤ c.max_board_size)

/-- `GameConfig::get_max_dimension`. -/
def GameConfig.get_max_dimension (c : GameConfig) (current_size layers : Nat) : Nat :=
  min (current_size + 2 * layers) c.max_board_size

/-- `GameConfig::can_expand_in_current_mode`: only `Dynamic` boards expand. -/
def GameConfig.can_expand_in_current_mode (c : GameConfig) : Bool :=
  c.board_size_mode = BoardSizeMode.Dynamic

/-! ### Rule engine (`life_cycle.rs`) -/

/-- The 3×3 offset grid scanned by `count_alive_neighbors`
(`for dy in -1..=1 { for dx in -1..=1 { ... } }`), in iteration order. -/
def neighborScan : List (Int × Int) :=
  ([-1, 0, 1] : List Int).flatMap (fun dy => ([-1, 0, 1] : List Int).map (fun dx => (dx, dy)))

/-- `Board::count_alive_neighbors`: counts the Alive cells among the 8
surrounding positions; the centre `(0, 0)` offset is skipped, negative or
out-of-range neighbor coordinates count as dead. -/
def Board.count_alive_neighbors (b : Board) (x y : Nat) : Nat :=
  neighborScan.countP (fun d =>
    !(d.1 == 0 && d.2 == 0) &&
    (decide (0 ≤ (x : Int) + d.1) && decide (0 ≤ (y : Int) + d.2) &&
     decide (((x : Int) + d.1).toNat < b.width) && decide (((y : Int) + d.2).toNat < b.height) &&
     (b.get_cell ((x : Int) + d.1).toNat ((y : Int) + d.2).toNat == some CellState.Alive)))

/-- Specification-side neighbor count: the 8 Moore offsets (diagonals
included) listed explicitly; a neighbor contributes iff it is an in-bounds
position holding an Alive cell, so positions outside the grid count as Dead. -/
def mooreCount (b : Board) (x y : Nat) : Nat :=
  ([(-1, -1), (0, -1), (1, -1), (-1, 0), (1, 0), (-1, 1), (0, 1), (1, 1)] :
      List (Int × Int)).countP (fun d =>
    decide (0 ≤ (x : Int) + d.1) && decide (0 ≤ (y : Int) + d.2) &&
    decide (((x : Int) + d.1).toNat < b.width) && decide (((y : Int) + d.2).toNat < b.height) &&
    (b.get_cell ((x : Int) + d.1).toNat ((y : Int) + d.2).toNat == some CellState.Alive))

/-- The per-cell transition computed inside the `next_generation` loop body:
an Alive cell survives iff its neighbor count is in the survival range, a Dead
cell is born iff its count is in the birth range.  (`unwrap_or(Dead)` on the
in-bounds `get_cell` is the loop's `current_state`.) -/
def nextCellState (cfg : GameConfig) (b : Board) (x y : Nat) : CellState :=
  match (b.get_cell x y).getD CellState.Dead with
  | CellState.Alive =>
      if cfg.should_survive (b.count_alive_neighbors x y) then CellState.Alive else CellState.Dead
  | CellState.Dead =>
      if cfg.should_birth (b.count_alive_neighbors x y) then CellState.Alive else CellState.Dead

/-- `Board::next_generation`: fills a fresh board of the same dimensions with
the per-cell rule, iterating row-major like the source's nested loops. -/
def Board.next_generation (cfg : GameConfig) (b : Board) : Board :=
  writeAll (Board.new b.width b.height)
    ((rowMajor b.width b.height).map (fun p => (p.1, p.2, nextCellState cfg b p.1 p.2)))

/-! ### Claim C1 -/

/-- A 3×3 board holding a horizontal blinker (middle row alive), used as a
concrete instance. -/
def blinkerBoard : Board :=
  ((((Board.new 3 3).set_cell 0 1 CellState.Alive).1.set_cell 1 1 CellState.Alive).1.set_cell
    2 1 CellState.Alive).1

/-! ### Expansion and optimization (`expansion.rs`)

The fill loops of this module iterate over the SOURCE board's coordinates and
write each (always in-bounds, hence `Some`) source cell to a shifted target
coordinate.  The embeddings below express the same writes indexed by the
TARGET coordinate: the write list is the shifted (and, where the source guards
`new_x < target_width`, filtered) row-major list, and the written value reads
the source cell back by undoing the shift.  Writing `.getD Dead` in place of
the source's `if let Some(...)` skip is outcome-identical: a skipped write
leaves the freshly allocated cell `Dead`, and each target coordinate is
written at most once. -/

/-- `Board::expand_by_layers`: `layers = 0` signals nothing to do; otherwise a
new board `2·layers` larger per axis with the content shifted by `layers`. -/
def Board.expand_by_layers (b : Board) (layers : Nat) : Option Board :=
  if layers = 0 then none
  else
    some (writeAll (Board.new (b.width + 2 * layers) (b.height + 2 * layers))
      (((rowMajor b.width b.height).map (fun p => (p.1 + layers, p.2 + layers))).map
        (fun q => (q.1, q.2, (b.get_cell (q.1 - layers) (q.2 - layers)).getD CellState.Dead))))

/-- `Board::expand_with_limits`: a new board of exactly the target dimensions
(no result when the target does not exceed the current size in some axis),
content centred by `(target − current) / 2`, writes clipped to the target. -/
def Board.expand_with_limits (b : Board) (target_width target_height : Nat) : Option Board :=
  if target_width ≤ b.width ∧ target_height ≤ b.height then none
  else
    let offset_x := (target_width - b.width) / 2
    let offset_y := (target_height - b.height) / 2
    some (writeAll (Board.new target_width target_height)
      ((((rowMajor b.width b.height).map (fun p => (p.1 + offset_x, p.2 + offset_y))).filter
          (fun q => decide (q.1 < target_width) && decide (q.2 < target_height))).map
        (fun q => (q.1, q.2, (b.get_cell (q.1 - offset_x) (q.2 - offset_y)).getD CellState.Dead))))

/-- The `needs_expansion` scan inside `Board::auto_expand_if_needed`: does
some Alive cell lie within `margin` of an edge (`saturating_sub` is `Nat`
subtraction)? -/
def needsExpansionScan (b : Board) (margin : Nat) : Bool :=
  (rowMajor b.width b.height).any (fun p =>
    (b.get_cell p.1 p.2 == some CellState.Alive) &&
    (decide (p.1 < margin) || decide (b.width - margin ≤ p.1) ||
     decide (p.2 < margin) || decide (b.height - margin ≤ p.2)))

/-- `Board::auto_expand_if_needed`: `None` in Static mode; `None` when the
grown board would exceed `max_board_size` (`can_expand` gate); otherwise, when
the scan finds an Alive cell near an edge, expands to
`min(current + 2·layers, get_max_dimension)` per axis, `None` when that target
equals the current size. -/
def Board.auto_expand_if_needed (cfg : GameConfig) (b : Board) (margin : Nat) : Option Board :=
  if !cfg.can_expand_in_current_mode then none
  else if !cfg.can_expand b.width b.height cfg.expansion_layers then none
  else
    let needs_expansion := needsExpansionScan b margin
    if needs_expansion then
      let layers := cfg.expansion_layers
      let max_width := cfg.get_max_dimension b.width layers
      let max_height := cfg.get_max_dimension b.height layers
      let target_width := min (b.width + 2 * layers) max_width
      let target_height := min (b.height + 2 * layers) max_height
      if target_width = b.width ∧ target_height = b.height then none
      else b.expand_with_limits target_width target_height
    else none

/-- `Board::remove_outer_ring`: boards of side ≤ 2 are returned unchanged
(the source clones); otherwise a `(size−2)²` board holding the inner area,
every cell shifted by `(−1, −1)`. -/
def Board.remove_outer_ring (b : Board) : Board :=
  if b.width ≤ 2 then b
  else
    let new_size := b.width - 2
    writeAll (Board.new new_size new_size)
      ((rowMajor new_size new_size).map
        (fun p => (p.1, p.2, (b.get_cell (p.1 + 1) (p.2 + 1)).getD CellState.Dead)))

/-- `Board::can_remove_outer_ring`: false when the (square) board is already
at the minimal side `2·margin + 1`; otherwise checks that layers
`0..=margin` from the edge hold no Alive cell.  The source's `break` once
`layer ≥ size / 2` is the first disjunct (those layers are not inspected). -/
def Board.can_remove_outer_ring (b : Board) (margin : Nat) : Bool :=
  let size := b.width
  if size ≤ 2 * margin + 1 then false
  else
    (List.range (margin + 1)).all (fun layer =>
      decide (size / 2 ≤ layer) ||
      (((List.range (size - 2 * layer)).all (fun i =>
          !(b.get_cell (layer + i) layer == some CellState.Alive) &&
          !(b.get_cell (layer + i) (size - 1 - layer) == some CellState.Alive))) &&
       ((List.range (size - 1 - layer - (layer + 1))).all (fun j =>
          !(b.get_cell layer (layer + 1 + j) == some CellState.Alive) &&
          !(b.get_cell (size - 1 - layer) (layer + 1 + j) == some CellState.Alive)))))

/-- `Board::resize_to`: centres existing content into a larger target and
crops centred content into a smaller one; always returns a board. -/
def Board.resize_to (b : Board) (new_width new_height : Nat) : Board :=
  let offset_x := if b.width < new_width then (new_width - b.width) / 2 else 0
  let offset_y := if b.height < new_height then (new_height - b.height) / 2 else 0
  let start_x := if new_width < b.width then (b.width - new_width) / 2 else 0
  let start_y := if new_height < b.height then (b.height - new_height) / 2 else 0
  let end_x := min (start_x + new_width) b.width
  let end_y := min (start_y + new_height) b.height
  writeAll (Board.new new_width new_height)
    ((((rowMajor (end_x - start_x) (end_y - start_y)).map
        (fun p => (p.1 + offset_x, p.2 + offset_y))).filter
        (fun q => decide (q.1 < new_width) && decide (q.2 < new_height))).map
      (fun q => (q.1, q.2,
        (b.get_cell ((q.1 - offset_x) + start_x) ((q.2 - offset_y) + start_y)).getD
          CellState.Dead)))

/-- `Board::resize_to_square`. -/
def Board.resize_to_square (b : Board) (size : Nat) : Board :=
  b.resize_to size size

/-- The `loop { ... }` of `Board::optimize_size`, with explicit fuel: while a
ring can be removed, remove it, stopping early once the side reaches
`2·margin + 1`; returns the final board and whether any ring was removed.
The source loop terminates whenever `margin ≥ 1` (every removal shrinks the
side by 2 and the early stop fires first), so the fuel given by
`optimize_size` below suffices for every terminating run.  The one family of
runs where the source never terminates (margin = 0 reaching an all-Dead 2×2
square, where `remove_outer_ring` returns its input unchanged and the loop
spins) exhausts the fuel and is mapped to `none`. -/
def shrinkGo (margin : Nat) : Nat → Board → Option (Board × Bool)
  | 0, _ => none
  | fuel + 1, b =>
      if b.can_remove_outer_ring margin then
        let b2 := b.remove_outer_ring
        if b2.width ≤ 2 * margin + 1 then some (b2, true)
        else
          match shrinkGo margin fuel b2 with
          | some (r, _) => some (r, true)
          | none => none
      else some (b, false)

/-- `Board::optimize_size`: `None` when the smaller dimension is already at
most `2·margin + 1`; otherwise squares the board to that side and runs the
ring-removal loop, returning the shrunk board only when at least one ring was
actually removed. -/
def Board.optimize_size (b : Board) (margin : Nat) : Option Board :=
  let current_size := min b.width b.height
  if current_size ≤ 2 * margin + 1 then none
  else
    match shrinkGo margin (current_size + 1) (b.resize_to_square current_size) with
    | some (r, true) => some r
    | some (_, false) => none
    | none => none

/-! ### Prediction (`prediction.rs`) -/

/-- `PredictionResult`: coordinates alive next generation, born (Dead now,
Alive next) and dying (Alive now, Dead next), each pushed in row-major scan
order. -/
structure PredictionResult where
  next_alive_cells : List (Nat × Nat)
  birth_cells : List (Nat × Nat)
  death_cells : List (Nat × Nat)

/-- `PredictionResult::new`. -/
def PredictionResult.new : PredictionResult := ⟨[], [], []⟩

/-- The `will_be_alive` value computed in the body of `predict_next_state`:
survival check for an Alive cell, birth check for a Dead one. -/
def willLive (cfg : GameConfig) (b : Board) (p : Nat × Nat) : Bool :=
  match (b.get_cell p.1 p.2).getD CellState.Dead with
  | CellState.Alive => cfg.should_survive (b.count_alive_neighbors p.1 p.2)
  | CellState.Dead => cfg.should_birth (b.count_alive_neighbors p.1 p.2)

/-- One iteration of the `predict_next_state` loop: a cell that will live is
pushed onto `next_alive_cells`, and additionally onto `birth_cells` when it is
currently Dead; a cell that will not live is pushed onto `death_cells` when it
is currently Alive. -/
def predictStep (cfg : GameConfig) (b : Board) (r : PredictionResult) (p : Nat × Nat) :
    PredictionResult :=
  let current_state := (b.get_cell p.1 p.2).getD CellState.Dead
  if willLive cfg b p then
    { r with next_alive_cells := r.next_alive_cells ++ [p],
             birth_cells :=
               if current_state = CellState.Dead then r.birth_cells ++ [p] else r.birth_cells }
  else
    { r with death_cells :=
               if current_state = CellState.Alive then r.death_cells ++ [p] else r.death_cells }

/-- `predict_next_state`: the row-major scan of the board accumulating the
three coordinate lists. -/
def predict_next_state (cfg : GameConfig) (b : Board) : PredictionResult :=
  (rowMajor b.width b.height).foldl (predictStep cfg b) PredictionResult.new

/-! ### Reset manager (`reset.rs`) -/

/-- `ResetManager`. -/
structure ResetManager where
  pre_start_board : Option Board
  last_reset_was_to_pre_start : Bool
  was_ever_started : Bool

/-- `ResetManager::new` / `Default`. -/
def ResetManager.new : ResetManager :=
  { pre_start_board := none, last_reset_was_to_pre_start := false, was_ever_started := false }

/-- `ResetManager::save_pre_start_state`. -/
def ResetManager.save_pre_start_state (m : ResetManager) (board : Board) : ResetManager :=
  { m with pre_start_board := some board, last_reset_was_to_pre_start := false,
           was_ever_started := true }

/-- The `target_size` read inside `reset_board` from the CURRENT configuration:
`initial_board_size` in Dynamic mode, `static_board_size` in Static mode. -/
def targetSize (cfg : GameConfig) : Nat :=
  match cfg.board_size_mode with
  | BoardSizeMode.Dynamic => cfg.initial_board_size
  | BoardSizeMode.Static => cfg.static_board_size

/-- `ResetManager::reset_board`: returns the updated manager, the new board
and the Rust `bool` return telling the caller to clear `ever_started`.  The
`_current_board` argument is, as in the source (`_current_board`), unused. -/
def ResetManager.reset_board (cfg : GameConfig) (m : ResetManager) (_current_board : Board)
    (ever_started : Bool) : ResetManager × Board × Bool :=
  let target_size := targetSize cfg
  if ever_started = false then
    ({ m with last_reset_was_to_pre_start := false }, Board.new target_size target_size, false)
  else
    match m.pre_start_board with
    | some pre =>
        if m.last_reset_was_to_pre_start = false then
          ({ m with last_reset_was_to_pre_start := true },
           pre.resize_to_square (targetSize cfg), false)
        else
          ({ pre_start_board := none, last_reset_was_to_pre_start := false,
             was_ever_started := false },
           Board.new target_size target_size, true)
    | none =>
        ({ pre_start_board := none, last_reset_was_to_pre_start := false,
           was_ever_started := false },
         Board.new target_size target_size, true)

/-! ### Click/drag editing (`change_state.rs`) -/

/-- `DragAction`: the action fixed by the first cell of a drag. -/
inductive DragAction where
  | CreateCell : DragAction
  | KillCell : DragAction
deriving DecidableEq, Repr

/-- `DragState`. -/
structure DragState where
  is_dragging : Bool
  drag_action : Option DragAction
  last_cell : Option (Nat × Nat)
deriving DecidableEq, Repr

/-- `DragState::new` / `Default`: idle. -/
def DragState.new : DragState :=
  { is_dragging := false, drag_action := none, last_cell := none }

/-- `DragState::is_new_cell`: the hovered cell differs from `last_cell`
(`!=` on coordinate pairs is decidable inequality). -/
def DragState.is_new_cell (ds : DragState) (cell : Nat × Nat) : Bool :=
  match ds.last_cell with
  | some last => decide (last ≠ cell)
  | none => true

/-- `CellStateManager`: wraps the drag state. -/
structure CellStateManager where
  drag_state : DragState
deriving DecidableEq, Repr

/-- `CellStateManager::new` / `Default`. -/
def CellStateManager.new : CellStateManager := { drag_state := DragState.new }

/-- `CellStateManager::start_drag`: reads the first cell, fixes the action
(`CreateCell` on a Dead cell, `KillCell` on an Alive one), records the drag
state, and toggles that first cell; out-of-bounds starts do nothing. -/
def CellStateManager.start_drag (m : CellStateManager) (b : Board) (x y : Nat) :
    CellStateManager × Board × Bool :=
  match b.get_cell x y with
  | some current_state =>
      let action := match current_state with
        | CellState.Dead => DragAction.CreateCell
        | CellState.Alive => DragAction.KillCell
      let tog := b.toggle_cell x y
      ({ drag_state :=
          { is_dragging := true, drag_action := some action, last_cell := some (x, y) } },
       tog.1, tog.2)
  | none => (m, b, false)

/-- `CellStateManager::continue_drag`: no-op unless dragging onto a new cell;
records the new `last_cell`, then applies the fixed action — `CreateCell`
writes Alive only on Dead cells, `KillCell` writes Dead only on Alive cells. -/
def CellStateManager.continue_drag (m : CellStateManager) (b : Board) (x y : Nat) :
    CellStateManager × Board × Bool :=
  if !m.drag_state.is_dragging then (m, b, false)
  else if !(m.drag_state.is_new_cell (x, y)) then (m, b, false)
  else
    let m2 : CellStateManager :=
      { drag_state := { m.drag_state with last_cell := some (x, y) } }
    match m.drag_state.drag_action with
    | none => (m2, b, false)
    | some action =>
        match b.get_cell x y with
        | none => (m2, b, false)
        | some current_state =>
            match action with
            | DragAction.CreateCell =>
                if current_state = CellState.Dead then
                  let r := b.set_cell x y CellState.Alive
                  (m2, r.1, r.2)
                else (m2, b, false)
            | DragAction.KillCell =>
                if current_state = CellState.Alive then
                  let r := b.set_cell x y CellState.Dead
                  (m2, r.1, r.2)
                else (m2, b, false)

/-- A whole drag gesture after its first cell: fold `continue_drag` over the
hovered cells in order. -/
def runDrags (st : CellStateManager × Board) (ps : List (Nat × Nat)) :
    CellStateManager × Board :=
  ps.foldl (fun s p =>
    let r := CellStateManager.continue_drag s.1 s.2 p.1 p.2
    (r.1, r.2.1)) st

/-- Modelled from the spec (§4.3 `optimize_size`, the claim C2 formulation):
the result re-derived from the bounding box of Alive cells — the minimal
rectangle containing all Alive cells, expanded on each side by the margin and
clipped to the original grid — with no result exactly when no shrink is
possible (the grid already minimal, or empty with already-minimal size).  The
source implements iterative ring removal instead; this definition exists to
compare the two. -/
def optimizeSizeSpec (b : Board) (margin : Nat) : Option Board :=
  let alive := (rowMajor b.width b.height).filter
    (fun p => b.get_cell p.1 p.2 == some CellState.Alive)
  match alive with
  | [] =>
      if b.width ≤ 2 * margin + 1 ∧ b.height ≤ 2 * margin + 1 then none
      else some (Board.new (min b.width (2 * margin + 1)) (min b.height (2 * margin + 1)))
  | q :: qs =>
      let xs := (q :: qs).map Prod.fst
      let ys := (q :: qs).map Prod.snd
      let x0 := (xs.foldl min q.1) - margin
      let y0 := (ys.foldl min q.2) - margin
      let x1 := min ((xs.foldl max q.1) + margin) (b.width - 1)
      let y1 := min ((ys.foldl max q.2) + margin) (b.height - 1)
      let nw := x1 + 1 - x0
      let nh := y1 + 1 - y0
      if nw = b.width ∧ nh = b.height then none
      else
        some (writeAll (Board.new nw nh)
          ((rowMajor nw nh).map
            (fun p => (p.1, p.2, (b.get_cell (x0 + p.1) (y0 + p.2)).getD CellState.Dead))))

/-! ### Decidable equality of boards (the `hsize` field is proof-irrelevant) -/

instance : DecidableEq Board := fun a b =>
  if h : a.cells = b.cells ∧ a.width = b.width ∧ a.height = b.height then
    Decidable.isTrue (by
      obtain ⟨h1, h2, h3⟩ := h
      cases a
      cases b
      simp only at h1 h2 h3
      subst h1; subst h2; subst h3
      rfl)
  else
    Decidable.isFalse (fun he => h (by subst he; exact ⟨rfl, rfl, rfl⟩))

/-! ### Claim C3 -/

/-- A small Dynamic configuration whose maximum board size (4) cannot
accommodate a full expansion step from size 3 (3 + 2·1 = 5 > 4). -/
def cfgC3 : GameConfig :=
  { birth_lo := 3, birth_hi := 3, survival_lo := 2, survival_hi := 3,
    board_size_mode := BoardSizeMode.Dynamic,
    max_board_size := 4, initial_board_size := 3, static_board_size := 3,
    expansion_margin := 1, expansion_layers := 1, optimization_margin := 1 }

/-- A 3×3 board with one Alive cell in the corner (on the edge). -/
def bC3 : Board := ((Board.new 3 3).set_cell 0 0 CellState.Alive).1

/-- A 5×5 board with one Alive cell in the corner, used as a C3 witness under
the default configuration. -/
def bC3w : Board := ((Board.new 5 5).set_cell 0 0 CellState.Alive).1

/-- The 7×7 board produced by auto-expanding `bC3w` one layer. -/
def rC3w : Board := ((Board.new 7 7).set_cell 1 1 CellState.Alive).1

/-! ### Claims C2 and C7 -/

/-- A 5×5 board with a single Alive cell in the far corner: its bounding box
is 1×1 but the ring remover cannot act (the cell sits on the outer ring). -/
def b5cex : Board := ((Board.new 5 5).set_cell 4 4 CellState.Alive).1

/-- A 5×5 board with a single Alive centre cell. -/
def bC2w : Board := ((Board.new 5 5).set_cell 2 2 CellState.Alive).1

/-- The 1×1 all-Alive board: `optimize_size bC2w 0`. -/
def rC2w : Board := ((Board.new 1 1).set_cell 0 0 CellState.Alive).1

/-- The 3×3 board with Alive centre: `optimize_size bC2w 1`. -/
def rC7w : Board := ((Board.new 3 3).set_cell 1 1 CellState.Alive).1

/-! ### Basic facts about the board representation -/

theorem Board.index_lt {w h x y : Nat} (hx : x < w) (hy : y < h) :
    y * w + x < w * h := by
  have h1 : y * w + x < (y + 1) * w := by
    rw [Nat.succ_mul]; omega
  have h2 : (y + 1) * w ≤ h * w := Nat.mul_le_mul_right w hy
  have h3 : h * w = w * h := Nat.mul_comm h w
  omega

theorem Board.index_inj {w x1 y1 x2 y2 : Nat} (hx1 : x1 < w) (hx2 : x2 < w)
    (he : y1 * w + x1 = y2 * w + x2) : x1 = x2 ∧ y1 = y2 := by
  have hm : (y1 * w + x1) % w = (y2 * w + x2) % w := by rw [he]
  rw [Nat.mul_comm y1 w, Nat.mul_comm y2 w, Nat.mul_add_mod, Nat.mul_add_mod,
    Nat.mod_eq_of_lt hx1, Nat.mod_eq_of_lt hx2] at hm
  subst hm
  have hw : 0 < w := Nat.lt_of_le_of_lt (Nat.zero_le x1) hx1
  have : y1 * w = y2 * w := by omega
  exact ⟨rfl, Nat.eq_of_mul_eq_mul_right hw this⟩

theorem Board.get_cell_isSome {b : Board} {x y : Nat} (hx : x < b.width) (hy : y < b.height) :
    ∃ c, b.get_cell x y = some c := by
  have hlt : y * b.width + x < b.cells.length := by
    rw [b.hsize]; exact Board.index_lt hx hy
  have h : b.cells[y * b.width + x]? = some (b.cells[y * b.width + x]) :=
    List.getElem?_eq_getElem hlt
  exact ⟨b.cells[y * b.width + x], by simp [Board.get_cell, hx, hy, h]⟩

theorem Board.get_cell_none {b : Board} {x y : Nat} (h : ¬(x < b.width ∧ y < b.height)) :
    b.get_cell x y = none := by
  simp [Board.get_cell, h]

theorem Board.get_cell_bounds {b : Board} {x y : Nat} {c : CellState}
    (h : b.get_cell x y = some c) : x < b.width ∧ y < b.height := by
  by_contra hc
  rw [Board.get_cell_none hc] at h
  exact Option.noConfusion h

theorem Board.set_cell_width (b : Board) (x y : Nat) (s : CellState) :
    ((b.set_cell x y s).1).width = b.width := by
  unfold Board.set_cell
  by_cases h : x < b.width ∧ y < b.height <;> simp [h]

theorem Board.set_cell_height (b : Board) (x y : Nat) (s : CellState) :
    ((b.set_cell x y s).1).height = b.height := by
  unfold Board.set_cell
  by_cases h : x < b.width ∧ y < b.height <;> simp [h]

/-- Reading after writing: the written coordinate holds the written value when
in bounds; every other coordinate (and the out-of-bounds no-op case) is
unchanged. -/
theorem Board.get_set (b : Board) (x y : Nat) (s : CellState) (u v : Nat) :
    ((b.set_cell x y s).1).get_cell u v =
      if u = x ∧ v = y ∧ x < b.width ∧ y < b.height then some s else b.get_cell u v := by
  unfold Board.set_cell
  by_cases hb : x < b.width ∧ y < b.height
  · simp only [hb, and_true, if_true]
    by_cases huv : u < b.width ∧ v < b.height
    · simp only [Board.get_cell, huv, and_self, if_true]
      by_cases he : u = x ∧ v = y
      · rcases he with ⟨hex, hey⟩
        subst hex; subst hey
        have hlt : v * b.width + u < b.cells.length := by
          rw [b.hsize]; exact Board.index_lt huv.1 huv.2
        simp [List.getElem?_set_self hlt]
      · have hne : y * b.width + x ≠ v * b.width + u := by
          intro hcon
          exact he ⟨(Board.index_inj hb.1 huv.1 hcon).1.symm, (Board.index_inj hb.1 huv.1 hcon).2.symm⟩
        simp [List.getElem?_set_ne hne, he]
    · have h1 : ¬(u = x ∧ v = y ∧ x < b.width ∧ y < b.height) := by
        rintro ⟨rfl, rfl, h3, h4⟩; exact huv ⟨h3, h4⟩
      have h2 : ¬(u = x ∧ v = y) := by
        rintro ⟨rfl, rfl⟩; exact huv hb
      simp [Board.get_cell, huv, h1, h2]
  · have h1 : ¬(u = x ∧ v = y ∧ x < b.width ∧ y < b.height) := by
      rintro ⟨rfl, rfl, h3, h4⟩; exact hb ⟨h3, h4⟩
    simp [hb, h1]

/-- Boards with equal dimensions and equal cell reads are equal. -/
theorem Board.ext_cells {a b : Board} (hw : a.width = b.width) (hh : a.height = b.height)
    (hg : ∀ x y, a.get_cell x y = b.get_cell x y) : a = b := by
  have hlen : a.cells.length = b.cells.length := by
    rw [a.hsize, b.hsize, hw, hh]
  have hc : a.cells = b.cells := by
    apply List.ext_getElem?
    intro n
    by_cases hn : n < a.cells.length
    · have hwpos : 0 < a.width := by
        rcases Nat.eq_zero_or_pos a.width with h0 | h; · rw [a.hsize, h0] at hn; omega
        exact h
      have hx : n % a.width < a.width := Nat.mod_lt _ hwpos
      have hy : n / a.width < a.height := by
        have hs := a.hsize; exact Nat.div_lt_of_lt_mul (by omega)
      have hidx : (n / a.width) * a.width + n % a.width = n := by
        rw [Nat.mul_comm]; exact Nat.div_add_mod n a.width
      have ha : a.get_cell (n % a.width) (n / a.width) = a.cells[n]? := by
        simp [Board.get_cell, hx, hy, hidx]
      have hbg : b.get_cell (n % a.width) (n / a.width) = b.cells[n]? := by
        have hx2 : n % a.width < b.width := hw ▸ hx
        have hy2 : n / a.width < b.height := hh ▸ hy
        have hidx2 : (n / a.width) * b.width + n % a.width = n := by rw [← hw]; exact hidx
        simp [Board.get_cell, hx2, hy2, hidx2]
      rw [← ha, ← hbg, hg]
    · rw [List.getElem?_eq_none (by omega), List.getElem?_eq_none (by omega)]
  cases a; cases b
  simp_all

theorem writeAll_width (ws : List (Nat × Nat × CellState)) :
    ∀ b : Board, (writeAll b ws).width = b.width := by
  induction ws with
  | nil => intro b; rfl
  | cons e t ih =>
      intro b
      show (writeAll ((b.set_cell e.1 e.2.1 e.2.2).1) t).width = b.width
      rw [ih, Board.set_cell_width]

theorem writeAll_height (ws : List (Nat × Nat × CellState)) :
    ∀ b : Board, (writeAll b ws).height = b.height := by
  induction ws with
  | nil => intro b; rfl
  | cons e t ih =>
      intro b
      show (writeAll ((b.set_cell e.1 e.2.1 e.2.2).1) t).height = b.height
      rw [ih, Board.set_cell_height]

/-- Reading from a board filled by a loop that writes `f p.1 p.2` at every
coordinate `p` drawn from `l`: a coordinate covered by `l` (and in bounds)
reads back its written value, every other coordinate reads the base board. -/
theorem getCell_writeAll (f : Nat → Nat → CellState) :
    ∀ (l : List (Nat × Nat)) (b : Board) (x y : Nat),
      (writeAll b (l.map (fun p => (p.1, p.2, f p.1 p.2)))).get_cell x y =
        if (x, y) ∈ l ∧ x < b.width ∧ y < b.height then some (f x y) else b.get_cell x y := by
  intro l
  induction l with
  | nil => intro b x y; simp [writeAll]
  | cons p t ih =>
      intro b x y
      have hstep : writeAll b ((p :: t).map (fun p => (p.1, p.2, f p.1 p.2))) =
          writeAll ((b.set_cell p.1 p.2 (f p.1 p.2)).1) (t.map (fun p => (p.1, p.2, f p.1 p.2))) := rfl
      rw [hstep, ih]
      rw [Board.set_cell_width, Board.set_cell_height, Board.get_set]
      by_cases hmem : (x, y) ∈ t
      · by_cases hxy : x < b.width ∧ y < b.height
        · simp [hmem, hxy, List.mem_cons]
        · have : ¬(x = p.1 ∧ y = p.2 ∧ p.1 < b.width ∧ p.2 < b.height) := by
            rintro ⟨rfl, rfl, h3, h4⟩; exact hxy ⟨h3, h4⟩
          simp [hmem, hxy, this]
      · by_cases hp : (x, y) = p
        · have hx1 : p.1 = x := by rw [← hp]
          have hy1 : p.2 = y := by rw [← hp]
          by_cases hxy : x < b.width ∧ y < b.height
          · simp [hmem, hxy, List.mem_cons, hp, hx1, hy1]
          · have hc2 : ¬(x = p.1 ∧ y = p.2 ∧ p.1 < b.width ∧ p.2 < b.height) := by
              rw [hx1, hy1]; rintro ⟨-, -, h3, h4⟩; exact hxy ⟨h3, h4⟩
            simp [hmem, hxy, hc2]
        · have hne : ¬(x = p.1 ∧ y = p.2) := by
            rintro ⟨rfl, rfl⟩; exact hp rfl
          have hcons : ¬((x, y) ∈ p :: t ∧ x < b.width ∧ y < b.height) := by
            rintro ⟨hm, -⟩
            rcases List.mem_cons.mp hm with h | h
            · exact hp h
            · exact hmem h
          simp only [hmem, false_and, if_false, hcons]
          have hc3 : ¬(x = p.1 ∧ y = p.2 ∧ p.1 < b.width ∧ p.2 < b.height) := by
            rintro ⟨rfl, rfl, -⟩; exact hne ⟨rfl, rfl⟩
          simp [hc3]

theorem mem_rowMajor {w h x y : Nat} : (x, y) ∈ rowMajor w h ↔ x < w ∧ y < h := by
  simp only [rowMajor, List.mem_flatMap, List.mem_map, List.mem_range, Prod.mk.injEq]
  constructor
  · rintro ⟨b, hb, a, ha, rfl, rfl⟩; exact ⟨ha, hb⟩
  · rintro ⟨hx, hy⟩; exact ⟨y, hy, x, hx, rfl, rfl⟩

/-- The loop's 3×3 scan with the centre skipped counts exactly the 8 Moore
neighbors. -/
theorem count_alive_neighbors_eq_mooreCount (b : Board) (x y : Nat) :
    b.count_alive_neighbors x y = mooreCount b x y := by
  simp only [Board.count_alive_neighbors, mooreCount, neighborScan, List.flatMap_cons,
    List.map_cons, List.map_nil, List.flatMap_nil, List.append_nil, List.cons_append,
    List.nil_append, List.countP_cons, List.countP_nil]
  norm_num

theorem next_generation_width (cfg : GameConfig) (b : Board) :
    (b.next_generation cfg).width = b.width := by
  unfold Board.next_generation
  rw [writeAll_width]
  rfl

theorem next_generation_height (cfg : GameConfig) (b : Board) :
    (b.next_generation cfg).height = b.height := by
  unfold Board.next_generation
  rw [writeAll_height]
  rfl

theorem get_new (w h x y : Nat) :
    (Board.new w h).get_cell x y =
      if x < w ∧ y < h then some CellState.Dead else none := by
  by_cases hb : x < w ∧ y < h
  · have hlt : y * w + x < (List.replicate (w * h) CellState.Dead).length := by
      rw [List.length_replicate]; exact Board.index_lt hb.1 hb.2
    simp [Board.new, Board.get_cell, hb, List.getElem?_eq_getElem hlt]
  · simp [Board.new, Board.get_cell, hb]

/-- Pointwise description of `next_generation`: every in-bounds cell of the
result is the rule applied to the input, out-of-bounds reads stay `none`. -/
theorem get_next_generation (cfg : GameConfig) (b : Board) (x y : Nat) :
    (b.next_generation cfg).get_cell x y =
      if x < b.width ∧ y < b.height then some (nextCellState cfg b x y) else none := by
  unfold Board.next_generation
  rw [getCell_writeAll]
  have hw : (Board.new b.width b.height).width = b.width := rfl
  have hh : (Board.new b.width b.height).height = b.height := rfl
  rw [hw, hh, get_new]
  by_cases hb : x < b.width ∧ y < b.height
  · simp [hb, mem_rowMajor]
  · simp [hb, mem_rowMajor]

/-- C1: `next_generation` keeps the grid dimensions, and computes every cell
from the input grid: the Alive count among the 8 Moore neighbors (diagonals
included, outside-the-grid positions counting as Dead) decides the new state —
a Dead cell becomes Alive iff the count is in the inclusive birth range, an
Alive cell stays Alive iff the count is in the inclusive survival range, and
every other case yields Dead. -/
theorem C1_next_generation_rule (cfg : GameConfig) (b : Board) (x y : Nat)
    (hx : x < b.width) (hy : y < b.height) :
    (b.next_generation cfg).width = b.width ∧
    (b.next_generation cfg).height = b.height ∧
    (b.next_generation cfg).get_cell x y = some
      (if (b.get_cell x y).getD CellState.Dead = CellState.Dead then
        (if cfg.should_birth (mooreCount b x y) then CellState.Alive else CellState.Dead)
      else
        (if cfg.should_survive (mooreCount b x y) then CellState.Alive else CellState.Dead)) := by
  refine ⟨next_generation_width cfg b, next_generation_height cfg b, ?_⟩
  rw [get_next_generation]
  simp only [hx, hy, and_self, if_true]
  cases hcell : (b.get_cell x y).getD CellState.Dead <;>
    simp [nextCellState, hcell, count_alive_neighbors_eq_mooreCount]

/-- C1 witness: the rule evaluated at cell `(1, 0)` of a concrete blinker. -/
theorem C1_next_generation_rule_witness :
    (blinkerBoard.next_generation GameConfig.default).width = blinkerBoard.width ∧
    (blinkerBoard.next_generation GameConfig.default).height = blinkerBoard.height ∧
    (blinkerBoard.next_generation GameConfig.default).get_cell 1 0 = some
      (if (blinkerBoard.get_cell 1 0).getD CellState.Dead = CellState.Dead then
        (if GameConfig.default.should_birth (mooreCount blinkerBoard 1 0) then CellState.Alive
         else CellState.Dead)
      else
        (if GameConfig.default.should_survive (mooreCount blinkerBoard 1 0) then CellState.Alive
         else CellState.Dead)) :=
  C1_next_generation_rule GameConfig.default blinkerBoard 1 0 (by decide) (by decide)

/-! ### Set/toggle algebra -/

theorem Board.set_set_get (b : Board) (x y : Nat) {c : CellState}
    (hc : b.get_cell x y = some c) (s : CellState) :
    (((b.set_cell x y s).1).set_cell x y c).1 = b := by
  apply Board.ext_cells
  · rw [Board.set_cell_width, Board.set_cell_width]
  · rw [Board.set_cell_height, Board.set_cell_height]
  · intro u v
    rw [Board.get_set, Board.set_cell_width, Board.set_cell_height, Board.get_set]
    by_cases he : u = x ∧ v = y ∧ x < b.width ∧ y < b.height
    · rw [if_pos he]
      obtain ⟨h1, h2, h3, h4⟩ := he
      subst h1; subst h2
      rw [hc]
    · rw [if_neg he, if_neg he]

theorem Board.toggle_cell_twice (b : Board) (x y : Nat) :
    ((b.toggle_cell x y).1.toggle_cell x y).1 = b := by
  by_cases hb : x < b.width ∧ y < b.height
  · obtain ⟨c, hc⟩ := Board.get_cell_isSome hb.1 hb.2
    cases c
    · have h1 : b.toggle_cell x y = b.set_cell x y CellState.Alive := by
        simp [Board.toggle_cell, hc]
      have h2 : (b.set_cell x y CellState.Alive).1.get_cell x y = some CellState.Alive := by
        rw [Board.get_set]; simp [hb]
      rw [h1]
      have h3 : (b.set_cell x y CellState.Alive).1.toggle_cell x y =
          (b.set_cell x y CellState.Alive).1.set_cell x y CellState.Dead := by
        simp [Board.toggle_cell, h2]
      rw [h3]
      exact Board.set_set_get b x y hc CellState.Alive
    · have h1 : b.toggle_cell x y = b.set_cell x y CellState.Dead := by
        simp [Board.toggle_cell, hc]
      have h2 : (b.set_cell x y CellState.Dead).1.get_cell x y = some CellState.Dead := by
        rw [Board.get_set]; simp [hb]
      rw [h1]
      have h3 : (b.set_cell x y CellState.Dead).1.toggle_cell x y =
          (b.set_cell x y CellState.Dead).1.set_cell x y CellState.Alive := by
        simp [Board.toggle_cell, h2]
      rw [h3]
      exact Board.set_set_get b x y hc CellState.Dead
  · have hn : b.get_cell x y = none := Board.get_cell_none hb
    simp [Board.toggle_cell, hn]

/-! ### Claim C8 -/

/-- C8: for every in-bounds coordinate, reading right after
`set(x, y, Alive)` yields `Alive`; and toggling any coordinate twice (in or
out of bounds — out-of-bounds toggles are no-ops) restores the original
grid. -/
theorem C8_set_get_and_double_toggle (b : Board) (x y : Nat)
    (hx : x < b.width) (hy : y < b.height) :
    ((b.set_cell x y CellState.Alive).1).get_cell x y = some CellState.Alive ∧
    ∀ u v : Nat, ((b.toggle_cell u v).1.toggle_cell u v).1 = b := by
  constructor
  · rw [Board.get_set]; simp [hx, hy]
  · intro u v; exact Board.toggle_cell_twice b u v

/-- C8 witness: the blinker board at in-bounds coordinate `(2, 0)`. -/
theorem C8_set_get_and_double_toggle_witness :
    ((blinkerBoard.set_cell 2 0 CellState.Alive).1).get_cell 2 0 = some CellState.Alive ∧
    ∀ u v : Nat, ((blinkerBoard.toggle_cell u v).1.toggle_cell u v).1 = blinkerBoard :=
  C8_set_get_and_double_toggle blinkerBoard 2 0 (by decide) (by decide)

/-! ### Claim C10 -/

/-- C10: `reset_board` never reads the current grid it is handed — with equal
manager state, `ever_started` flag and configuration, any two current grids
produce identical results and identical post-call manager states (the source
binds the grid as the unused `_current_board`). -/
theorem C10_reset_board_ignores_current_grid (cfg : GameConfig) (m : ResetManager)
    (ever_started : Bool) (g1 g2 : Board) :
    ResetManager.reset_board cfg m g1 ever_started =
      ResetManager.reset_board cfg m g2 ever_started := rfl

/-! ### Claim C5 -/

/-- C5: after `save_pre_start_state` (snapshot saved, restore-next flag set),
with `ever_started = true`: the first reset returns the snapshot resized to
the target size read from the configuration current at that call and does not
signal clearing `ever_started`; the second reset returns a fresh empty grid of
the target size read from the (possibly different) configuration current at
the second call, clears the snapshot, and signals that `ever_started` must be
reset to false. -/
theorem C5_reset_two_stage (cfg1 cfg2 : GameConfig) (m : ResetManager)
    (snap current1 current2 : Board) :
    (ResetManager.reset_board cfg1 (m.save_pre_start_state snap) current1 true).2.1 =
        snap.resize_to_square (targetSize cfg1) ∧
    (ResetManager.reset_board cfg1 (m.save_pre_start_state snap) current1 true).2.2 = false ∧
    (ResetManager.reset_board cfg1 (m.save_pre_start_state snap) current1 true).1.pre_start_board =
        some snap ∧
    (ResetManager.reset_board cfg2
        (ResetManager.reset_board cfg1 (m.save_pre_start_state snap) current1 true).1
        current2 true).2.1 = Board.new (targetSize cfg2) (targetSize cfg2) ∧
    (ResetManager.reset_board cfg2
        (ResetManager.reset_board cfg1 (m.save_pre_start_state snap) current1 true).1
        current2 true).2.2 = true ∧
    (ResetManager.reset_board cfg2
        (ResetManager.reset_board cfg1 (m.save_pre_start_state snap) current1 true).1
        current2 true).1.pre_start_board = none ∧
    (ResetManager.reset_board cfg2
        (ResetManager.reset_board cfg1 (m.save_pre_start_state snap) current1 true).1
        current2 true).1.was_ever_started = false := by
  simp [ResetManager.reset_board, ResetManager.save_pre_start_state]

/-! ### Claim C4 -/

theorem CellState.beq_eq (a b : CellState) : (a == b) = decide (a = b) := by
  cases a <;> cases b <;> rfl

theorem predict_foldl (cfg : GameConfig) (b : Board) :
    ∀ (l : List (Nat × Nat)) (r : PredictionResult),
      (l.foldl (predictStep cfg b) r).next_alive_cells =
          r.next_alive_cells ++ l.filter (fun p => willLive cfg b p) ∧
      (l.foldl (predictStep cfg b) r).birth_cells =
          r.birth_cells ++ l.filter (fun p =>
            willLive cfg b p && ((b.get_cell p.1 p.2).getD CellState.Dead == CellState.Dead)) ∧
      (l.foldl (predictStep cfg b) r).death_cells =
          r.death_cells ++ l.filter (fun p =>
            !willLive cfg b p && ((b.get_cell p.1 p.2).getD CellState.Dead == CellState.Alive)) := by
  intro l
  induction l with
  | nil => intro r; simp
  | cons p t ih =>
      intro r
      have hstep : (p :: t).foldl (predictStep cfg b) r =
          t.foldl (predictStep cfg b) (predictStep cfg b r p) := rfl
      rw [hstep]
      obtain ⟨ih1, ih2, ih3⟩ := ih (predictStep cfg b r p)
      refine ⟨?_, ?_, ?_⟩
      · rw [ih1]
        by_cases hw : willLive cfg b p
        · simp [predictStep, hw, List.filter_cons]
        · simp [predictStep, hw, List.filter_cons]
      · rw [ih2]
        by_cases hw : willLive cfg b p <;>
          cases hc : (b.get_cell p.1 p.2).getD CellState.Dead <;>
            simp [predictStep, hw, hc, List.filter_cons, CellState.beq_eq]
      · rw [ih3]
        by_cases hw : willLive cfg b p <;>
          cases hc : (b.get_cell p.1 p.2).getD CellState.Dead <;>
            simp [predictStep, hw, hc, List.filter_cons, CellState.beq_eq]

theorem nextCellState_alive_iff (cfg : GameConfig) (b : Board) (x y : Nat) :
    nextCellState cfg b x y = CellState.Alive ↔ willLive cfg b (x, y) = true := by
  unfold nextCellState willLive
  cases h : (b.get_cell x y).getD CellState.Dead
  · cases h2 : cfg.should_birth (b.count_alive_neighbors x y) <;> simp [h2]
  · cases h2 : cfg.should_survive (b.count_alive_neighbors x y) <;> simp [h2]

theorem nextCellState_dead_iff (cfg : GameConfig) (b : Board) (x y : Nat) :
    nextCellState cfg b x y = CellState.Dead ↔ willLive cfg b (x, y) = false := by
  constructor
  · intro h
    cases hw : willLive cfg b (x, y)
    · rfl
    · have h2 := (nextCellState_alive_iff cfg b x y).mpr hw
      rw [h] at h2
      exact CellState.noConfusion h2
  · intro hw
    cases hn : nextCellState cfg b x y
    · rfl
    · have h2 := (nextCellState_alive_iff cfg b x y).mp hn
      rw [hw] at h2
      exact Bool.noConfusion h2

/-- C4: `predict_next_state` classifies cells consistently with
`next_generation`: `birth_cells` and `death_cells` are disjoint,
`birth_cells ⊆ next_alive_cells`, and membership in the three lists is
exactly "Dead now and Alive in the next generation", "Alive now and Dead in
the next generation", and "Alive in the next generation". -/
theorem C4_predict_matches_next_generation (cfg : GameConfig) (b : Board) (p : Nat × Nat) :
    (p ∈ (predict_next_state cfg b).birth_cells → p ∉ (predict_next_state cfg b).death_cells) ∧
    (p ∈ (predict_next_state cfg b).birth_cells →
      p ∈ (predict_next_state cfg b).next_alive_cells) ∧
    (p ∈ (predict_next_state cfg b).birth_cells ↔
      b.get_cell p.1 p.2 = some CellState.Dead ∧
      (b.next_generation cfg).get_cell p.1 p.2 = some CellState.Alive) ∧
    (p ∈ (predict_next_state cfg b).death_cells ↔
      b.get_cell p.1 p.2 = some CellState.Alive ∧
      (b.next_generation cfg).get_cell p.1 p.2 = some CellState.Dead) ∧
    (p ∈ (predict_next_state cfg b).next_alive_cells ↔
      (b.next_generation cfg).get_cell p.1 p.2 = some CellState.Alive) := by
  obtain ⟨px, py⟩ := p
  obtain ⟨e1, e2, e3⟩ :=
    predict_foldl cfg b (rowMajor b.width b.height) PredictionResult.new
  have halive : (px, py) ∈ (predict_next_state cfg b).next_alive_cells ↔
      ((px, py) ∈ rowMajor b.width b.height ∧ willLive cfg b (px, py) = true) := by
    unfold predict_next_state
    rw [e1]
    simp [PredictionResult.new, List.mem_filter]
  have hbirth : (px, py) ∈ (predict_next_state cfg b).birth_cells ↔
      ((px, py) ∈ rowMajor b.width b.height ∧ willLive cfg b (px, py) = true ∧
        (b.get_cell px py).getD CellState.Dead = CellState.Dead) := by
    unfold predict_next_state
    rw [e2]
    simp [PredictionResult.new, List.mem_filter, Bool.and_eq_true, CellState.beq_eq, and_assoc]
  have hdeath : (px, py) ∈ (predict_next_state cfg b).death_cells ↔
      ((px, py) ∈ rowMajor b.width b.height ∧ willLive cfg b (px, py) = false ∧
        (b.get_cell px py).getD CellState.Dead = CellState.Alive) := by
    unfold predict_next_state
    rw [e3]
    simp [PredictionResult.new, List.mem_filter, Bool.and_eq_true, CellState.beq_eq, and_assoc]
  by_cases hbp : px < b.width ∧ py < b.height
  · obtain ⟨c, hc⟩ := Board.get_cell_isSome hbp.1 hbp.2
    have hgd : (b.get_cell px py).getD CellState.Dead = c := by rw [hc]; rfl
    have hng : (b.next_generation cfg).get_cell px py =
        some (nextCellState cfg b px py) := by
      rw [get_next_generation]; simp [hbp]
    have hmem : ((px, py) ∈ rowMajor b.width b.height) := mem_rowMajor.mpr hbp
    refine ⟨?_, ?_, ?_, ?_, ?_⟩
    · intro hbm hdm
      obtain ⟨-, hw1, -⟩ := hbirth.mp hbm
      obtain ⟨-, hw2, -⟩ := hdeath.mp hdm
      rw [hw1] at hw2
      exact Bool.noConfusion hw2
    · intro hbm
      obtain ⟨-, hw1, -⟩ := hbirth.mp hbm
      exact halive.mpr ⟨hmem, hw1⟩
    · rw [hbirth]
      constructor
      · rintro ⟨-, hw1, hdd⟩
        have hcd : c = CellState.Dead := by rw [← hgd]; exact hdd
        refine ⟨by rw [hc, hcd], ?_⟩
        rw [hng]
        exact congrArg some ((nextCellState_alive_iff cfg b px py).mpr hw1)
      · rintro ⟨h1, h2⟩
        have hcd : c = CellState.Dead := Option.some.inj (hc.symm.trans h1)
        refine ⟨hmem, ?_, ?_⟩
        · rw [hng] at h2
          exact (nextCellState_alive_iff cfg b px py).mp (Option.some.inj h2)
        · rw [hgd]; exact hcd
    · rw [hdeath]
      constructor
      · rintro ⟨-, hw1, hda⟩
        have hca : c = CellState.Alive := by rw [← hgd]; exact hda
        refine ⟨by rw [hc, hca], ?_⟩
        rw [hng]
        exact congrArg some ((nextCellState_dead_iff cfg b px py).mpr hw1)
      · rintro ⟨h1, h2⟩
        have hca : c = CellState.Alive := Option.some.inj (hc.symm.trans h1)
        refine ⟨hmem, ?_, ?_⟩
        · rw [hng] at h2
          exact (nextCellState_dead_iff cfg b px py).mp (Option.some.inj h2)
        · rw [hgd]; exact hca
    · rw [halive, hng]
      constructor
      · rintro ⟨-, hw1⟩
        exact congrArg some ((nextCellState_alive_iff cfg b px py).mpr hw1)
      · intro h2
        exact ⟨hmem, (nextCellState_alive_iff cfg b px py).mp (Option.some.inj h2)⟩
  · have hgn : b.get_cell px py = none := Board.get_cell_none hbp
    have hngn : (b.next_generation cfg).get_cell px py = none := by
      rw [get_next_generation]; simp [hbp]
    have hnm : ¬((px, py) ∈ rowMajor b.width b.height) := fun hm => hbp (mem_rowMajor.mp hm)
    refine ⟨?_, ?_, ?_, ?_, ?_⟩
    · intro hbm hdm
      exact hnm (hbirth.mp hbm).1
    · intro hbm
      exact absurd (hbirth.mp hbm).1 hnm
    · rw [hbirth]
      simp [hnm, hgn]
    · rw [hdeath]
      simp [hnm, hgn]
    · rw [halive]
      simp [hnm, hngn]

/-! ### `resize_to` facts -/

theorem Board.resize_to_width (b : Board) (nw nh : Nat) : (b.resize_to nw nh).width = nw := by
  simp only [Board.resize_to]
  rw [writeAll_width]
  rfl

theorem Board.resize_to_height (b : Board) (nw nh : Nat) : (b.resize_to nw nh).height = nh := by
  simp only [Board.resize_to]
  rw [writeAll_height]
  rfl

/-- Resizing a board to its own dimensions reproduces it: offsets and crop
starts are 0 and the copy loop covers every cell. -/
theorem Board.resize_self (b : Board) : b.resize_to b.width b.height = b := by
  apply Board.ext_cells (Board.resize_to_width b b.width b.height)
    (Board.resize_to_height b b.width b.height)
  intro x y
  simp only [Board.resize_to, lt_self_iff_false, if_false, Nat.zero_add, Nat.add_zero,
    Nat.sub_zero, min_self]
  rw [getCell_writeAll (fun a c => (b.get_cell a c).getD CellState.Dead)]
  by_cases hb : x < b.width ∧ y < b.height
  · obtain ⟨c, hc⟩ := Board.get_cell_isSome hb.1 hb.2
    have hmem : (x, y) ∈ (((rowMajor b.width b.height).map (fun p => (p.1, p.2))).filter
        (fun q => decide (q.1 < b.width) && decide (q.2 < b.height))) := by
      rw [List.mem_filter]
      refine ⟨List.mem_map.mpr ⟨(x, y), mem_rowMajor.mpr hb, rfl⟩, ?_⟩
      simp [hb.1, hb.2]
    have hbw : (Board.new b.width b.height).width = b.width := rfl
    have hbh : (Board.new b.width b.height).height = b.height := rfl
    rw [hbw, hbh, if_pos ⟨hmem, hb.1, hb.2⟩, hc]
    rfl
  · have hbw : (Board.new b.width b.height).width = b.width := rfl
    have hbh : (Board.new b.width b.height).height = b.height := rfl
    rw [hbw, hbh]
    have hnm : ¬((x, y) ∈ (((rowMajor b.width b.height).map (fun p => (p.1, p.2))).filter
        (fun q => decide (q.1 < b.width) && decide (q.2 < b.height))) ∧
        x < b.width ∧ y < b.height) := by
      rintro ⟨-, h1, h2⟩; exact hb ⟨h1, h2⟩
    rw [if_neg hnm, get_new, if_neg hb, Board.get_cell_none hb]

/-! ### Claim C9 -/

theorem optimize_size_minimal_none (b : Board) (m : Nat)
    (hmin : min b.width b.height ≤ 2 * m + 1) : b.optimize_size m = none := by
  simp only [Board.optimize_size]
  rw [if_pos hmin]

/-- C9 (amended): expanding by zero layers and optimizing an already-minimal
grid are each signaled by an absent result distinct from an error; resizing a
grid to its current width and height, however, returns a board — equal to the
original — rather than an absent result, since `resize_to` has no absent
case. -/
theorem C9_no_change_signals (b : Board) (m : Nat) :
    b.expand_by_layers 0 = none ∧
    (min b.width b.height ≤ 2 * m + 1 → b.optimize_size m = none) ∧
    b.resize_to b.width b.height = b :=
  ⟨rfl, optimize_size_minimal_none b m, Board.resize_self b⟩

/-- C9 witness: the three no-change transformations on a concrete 3×3 board
with margin 1 (for which `3 ≤ 2·1 + 1` makes the grid already minimal). -/
theorem C9_no_change_signals_witness :
    (Board.new 3 3).expand_by_layers 0 = none ∧
    (Board.new 3 3).optimize_size 1 = none ∧
    (Board.new 3 3).resize_to (Board.new 3 3).width (Board.new 3 3).height = Board.new 3 3 :=
  ⟨(C9_no_change_signals (Board.new 3 3) 1).1,
   (C9_no_change_signals (Board.new 3 3) 1).2.1 (by decide),
   (C9_no_change_signals (Board.new 3 3) 1).2.2⟩

/-- C9 counterexample: the claim says a same-size resize yields an absent
result, but `resize_to` returns a plain `Board` — on a concrete 3×3 board the
same-size resize returns a present board (the original itself), never an
absent signal. -/
theorem C9_counterexample :
    some (blinkerBoard.resize_to 3 3) ≠ (none : Option Board) ∧
    blinkerBoard.resize_to 3 3 = blinkerBoard := by
  constructor
  · intro h
    exact Option.noConfusion h
  · exact Board.resize_self blinkerBoard

theorem option_beq_some (o : Option CellState) (c : CellState) :
    (o == some c) = decide (o = some c) := by
  cases o with
  | none => rfl
  | some a => cases a <;> cases c <;> rfl

/-- The edge-proximity scan of `auto_expand_if_needed` finds an Alive cell
within `margin` of an edge iff one exists. -/
theorem nearEdge_any_iff (b : Board) (margin : Nat) :
    (needsExpansionScan b margin = true) ↔
    (∃ x y, b.get_cell x y = some CellState.Alive ∧
      (x < margin ∨ b.width - margin ≤ x ∨ y < margin ∨ b.height - margin ≤ y)) := by
  rw [needsExpansionScan, List.any_eq_true]
  constructor
  · rintro ⟨p, hp, hcond⟩
    rw [Bool.and_eq_true, option_beq_some, decide_eq_true_eq] at hcond
    refine ⟨p.1, p.2, hcond.1, ?_⟩
    have h2 := hcond.2
    simp only [Bool.or_eq_true, decide_eq_true_eq] at h2
    tauto
  · rintro ⟨x, y, hal, hcond⟩
    have hb := Board.get_cell_bounds hal
    refine ⟨(x, y), mem_rowMajor.mpr hb, ?_⟩
    rw [Bool.and_eq_true, option_beq_some, decide_eq_true_eq]
    refine ⟨hal, ?_⟩
    simp only [Bool.or_eq_true, decide_eq_true_eq]
    tauto

/-- When both target dimensions strictly exceed the current ones,
`expand_with_limits` produces a board of exactly the target dimensions with
the content shifted by half the growth per axis. -/
theorem expand_with_limits_spec (b : Board) (tw th : Nat)
    (hwlt : b.width < tw) (hhlt : b.height < th) :
    ∃ r, b.expand_with_limits tw th = some r ∧ r.width = tw ∧ r.height = th ∧
      ∀ x y, x < b.width → y < b.height →
        r.get_cell (x + (tw - b.width) / 2) (y + (th - b.height) / 2) = b.get_cell x y := by
  have hg : ¬(tw ≤ b.width ∧ th ≤ b.height) := by omega
  simp only [Board.expand_with_limits]
  rw [if_neg hg]
  refine ⟨_, rfl, ?_, ?_, ?_⟩
  · rw [writeAll_width]; rfl
  · rw [writeAll_height]; rfl
  · intro x y hx hy
    rw [getCell_writeAll (fun a c =>
      (b.get_cell (a - (tw - b.width) / 2) (c - (th - b.height) / 2)).getD CellState.Dead)]
    obtain ⟨cc, hcc⟩ := Board.get_cell_isSome hx hy
    have hxo : x + (tw - b.width) / 2 < tw := by omega
    have hyo : y + (th - b.height) / 2 < th := by omega
    have hmem : (x + (tw - b.width) / 2, y + (th - b.height) / 2) ∈
        (((rowMajor b.width b.height).map
          (fun p => (p.1 + (tw - b.width) / 2, p.2 + (th - b.height) / 2))).filter
          (fun q => decide (q.1 < tw) && decide (q.2 < th))) := by
      rw [List.mem_filter]
      refine ⟨List.mem_map.mpr ⟨(x, y), mem_rowMajor.mpr ⟨hx, hy⟩, rfl⟩, ?_⟩
      simp [hxo, hyo]
    have hbw : (Board.new tw th).width = tw := rfl
    have hbh : (Board.new tw th).height = th := rfl
    rw [hbw, hbh, if_pos ⟨hmem, hxo, hyo⟩]
    have hs1 : x + (tw - b.width) / 2 - (tw - b.width) / 2 = x := by omega
    have hs2 : y + (th - b.height) / 2 - (th - b.height) / 2 = y := by omega
    rw [hs1, hs2, hcc]
    rfl

/-- C3 (amended): in Dynamic mode, `auto_expand_if_needed` produces no result
exactly when no Alive cell lies within the margin of an edge, or the board
grown by `2·expansion_layers` per axis would exceed `max_board_size` (the
`can_expand` gate — even when the capped target `min(current + 2·layers,
max_board_size)` still exceeds the current size), or `expansion_layers = 0`;
when it does produce a result, the result measures exactly
`current + 2·expansion_layers` per axis (which under the gate equals the
capped target) with the original content re-centred, shifted by
`expansion_layers` on each axis. -/
theorem C3_auto_expand_characterization (cfg : GameConfig) (b : Board) (margin : Nat)
    (hdyn : cfg.board_size_mode = BoardSizeMode.Dynamic) :
    (b.auto_expand_if_needed cfg margin = none ↔
      (¬(∃ x y, b.get_cell x y = some CellState.Alive ∧
          (x < margin ∨ b.width - margin ≤ x ∨ y < margin ∨ b.height - margin ≤ y)) ∨
        cfg.can_expand b.width b.height cfg.expansion_layers = false ∨
        cfg.expansion_layers = 0)) ∧
    (∀ r, b.auto_expand_if_needed cfg margin = some r →
      r.width = b.width + 2 * cfg.expansion_layers ∧
      r.height = b.height + 2 * cfg.expansion_layers ∧
      ∀ x y, x < b.width → y < b.height →
        r.get_cell (x + cfg.expansion_layers) (y + cfg.expansion_layers) = b.get_cell x y) := by
  have hmode : cfg.can_expand_in_current_mode = true := by
    simp [GameConfig.can_expand_in_current_mode, hdyn]
  simp only [Board.auto_expand_if_needed, hmode, Bool.not_true, Bool.false_eq_true, if_false]
  cases hce : cfg.can_expand b.width b.height cfg.expansion_layers with
  | false =>
      simp only [Bool.not_false, if_true]
      exact ⟨⟨fun _ => Or.inr (Or.inl trivial), fun _ => by trivial⟩,
        fun r hr => absurd hr (by simp)⟩
  | true =>
      simp only [Bool.not_true, Bool.false_eq_true, if_false]
      obtain ⟨hwmax, hhmax⟩ : b.width + 2 * cfg.expansion_layers ≤ cfg.max_board_size ∧
          b.height + 2 * cfg.expansion_layers ≤ cfg.max_board_size := by
        have h2 := hce
        rw [GameConfig.can_expand, Bool.and_eq_true, decide_eq_true_eq, decide_eq_true_eq] at h2
        exact h2
      have htw : min (b.width + 2 * cfg.expansion_layers)
          (cfg.get_max_dimension b.width cfg.expansion_layers) =
          b.width + 2 * cfg.expansion_layers := by
        rw [GameConfig.get_max_dimension]
        omega
      have hth : min (b.height + 2 * cfg.expansion_layers)
          (cfg.get_max_dimension b.height cfg.expansion_layers) =
          b.height + 2 * cfg.expansion_layers := by
        rw [GameConfig.get_max_dimension]
        omega
      rw [htw, hth]
      cases hne : needsExpansionScan b margin with
      | false =>
          simp only [Bool.false_eq_true, if_false]
          have hnear : ¬(∃ x y, b.get_cell x y = some CellState.Alive ∧
              (x < margin ∨ b.width - margin ≤ x ∨ y < margin ∨ b.height - margin ≤ y)) := by
            intro hex
            rw [← nearEdge_any_iff b margin] at hex
            rw [hne] at hex
            exact Bool.noConfusion hex
          exact ⟨⟨fun _ => Or.inl hnear, fun _ => by trivial⟩,
            fun r hr => absurd hr (by simp)⟩
      | true =>
          simp only [if_true]
          have hnear : (∃ x y, b.get_cell x y = some CellState.Alive ∧
              (x < margin ∨ b.width - margin ≤ x ∨ y < margin ∨ b.height - margin ≤ y)) :=
            (nearEdge_any_iff b margin).mp hne
          by_cases hL : cfg.expansion_layers = 0
          · have hcond : b.width + 2 * cfg.expansion_layers = b.width ∧
                b.height + 2 * cfg.expansion_layers = b.height := by omega
            rw [if_pos hcond]
            exact ⟨⟨fun _ => Or.inr (Or.inr hL), fun _ => by trivial⟩,
              fun r hr => absurd hr (by simp)⟩
          · have hcond : ¬(b.width + 2 * cfg.expansion_layers = b.width ∧
                b.height + 2 * cfg.expansion_layers = b.height) := by omega
            rw [if_neg hcond]
            obtain ⟨r0, hr0, hrw, hrh, hcontent⟩ := expand_with_limits_spec b
              (b.width + 2 * cfg.expansion_layers) (b.height + 2 * cfg.expansion_layers)
              (by omega) (by omega)
            rw [hr0]
            constructor
            · constructor
              · intro hcon
                exact Option.noConfusion hcon
              · rintro (hno | hcf | hl0)
                · exact absurd hnear hno
                · exact Bool.noConfusion hcf
                · exact absurd hl0 hL
            · intro r hr
              have hrr : r0 = r := Option.some.inj hr
              subst hrr
              refine ⟨hrw, hrh, ?_⟩
              intro x y hx hy
              have ho1 : (b.width + 2 * cfg.expansion_layers - b.width) / 2 =
                  cfg.expansion_layers := by omega
              have ho2 : (b.height + 2 * cfg.expansion_layers - b.height) / 2 =
                  cfg.expansion_layers := by omega
              have hcx := hcontent x y hx hy
              rw [ho1, ho2] at hcx
              exact hcx

/-- C3 counterexample: a Dynamic 3×3 grid with an Alive corner cell within
the margin of the edge, not having reached `max_board_size = 4`, whose capped
target `min(3 + 2·1, 4) = 4` differs from the current size 3 — the claim
demands an expansion, yet `auto_expand_if_needed` returns no result because
the uncapped size `3 + 2·1 = 5` fails the `can_expand` gate. -/
theorem C3_counterexample :
    cfgC3.board_size_mode = BoardSizeMode.Dynamic ∧
    bC3.get_cell 0 0 = some CellState.Alive ∧
    0 < cfgC3.expansion_margin ∧
    bC3.width < cfgC3.max_board_size ∧
    bC3.height < cfgC3.max_board_size ∧
    min (bC3.width + 2 * cfgC3.expansion_layers) cfgC3.max_board_size ≠ bC3.width ∧
    bC3.auto_expand_if_needed cfgC3 cfgC3.expansion_margin = none := by
  decide

set_option maxRecDepth 4096 in
/-- C3 witness: under the default Dynamic configuration, a 5×5 board with an
Alive corner cell expands to the concrete 7×7 board with the cell shifted by
one layer. -/
theorem C3_auto_expand_characterization_witness :
    rC3w.width = bC3w.width + 2 * GameConfig.default.expansion_layers ∧
    rC3w.height = bC3w.height + 2 * GameConfig.default.expansion_layers ∧
    rC3w.get_cell (0 + GameConfig.default.expansion_layers)
      (0 + GameConfig.default.expansion_layers) = bC3w.get_cell 0 0 := by
  have h := (C3_auto_expand_characterization GameConfig.default bC3w 2 rfl).2 rC3w (by decide)
  exact ⟨h.1, h.2.1, h.2.2 0 0 (by decide) (by decide)⟩

/-! ### Ring removal facts -/

theorem remove_outer_ring_small (b : Board) (h2 : b.width ≤ 2) : b.remove_outer_ring = b := by
  simp only [Board.remove_outer_ring]
  rw [if_pos h2]

theorem remove_outer_ring_dims (b : Board) (h3 : 2 < b.width) :
    b.remove_outer_ring.width = b.width - 2 ∧ b.remove_outer_ring.height = b.width - 2 := by
  simp only [Board.remove_outer_ring]
  rw [if_neg (by omega)]
  constructor
  · rw [writeAll_width]; rfl
  · rw [writeAll_height]; rfl

theorem get_remove_outer_ring (b : Board) (hsq : b.width = b.height) (h3 : 2 < b.width)
    (x y : Nat) (hx : x < b.width - 2) (hy : y < b.width - 2) :
    b.remove_outer_ring.get_cell x y = b.get_cell (x + 1) (y + 1) := by
  simp only [Board.remove_outer_ring]
  rw [if_neg (by omega)]
  rw [getCell_writeAll (fun a c => (b.get_cell (a + 1) (c + 1)).getD CellState.Dead)]
  have hx1 : x + 1 < b.width := by omega
  have hy1 : y + 1 < b.height := by omega
  obtain ⟨cc, hcc⟩ := Board.get_cell_isSome hx1 hy1
  have hbw : (Board.new (b.width - 2) (b.width - 2)).width = b.width - 2 := rfl
  have hbh : (Board.new (b.width - 2) (b.width - 2)).height = b.width - 2 := rfl
  rw [hbw, hbh, if_pos ⟨mem_rowMajor.mpr ⟨hx, hy⟩, hx, hy⟩, hcc]
  rfl

theorem can_remove_outer_ring_lt (b : Board) (m : Nat)
    (hcr : b.can_remove_outer_ring m = true) : 2 * m + 1 < b.width := by
  by_contra hcon
  have : b.can_remove_outer_ring m = false := by
    simp only [Board.can_remove_outer_ring]
    rw [if_pos (by omega)]
  rw [this] at hcr
  exact Bool.noConfusion hcr

/-- A removable ring means the outermost layer holds no Alive cell: every
Alive cell of the (square) board lies strictly inside the border. -/
theorem can_remove_outer_ring_facts (b : Board) (m : Nat) (hsq : b.width = b.height)
    (hcr : b.can_remove_outer_ring m = true) :
    ∀ x y, b.get_cell x y = some CellState.Alive →
      1 ≤ x ∧ x + 1 < b.width ∧ 1 ≤ y ∧ y + 1 < b.width := by
  have hlt := can_remove_outer_ring_lt b m hcr
  simp only [Board.can_remove_outer_ring] at hcr
  rw [if_neg (by omega)] at hcr
  rw [List.all_eq_true] at hcr
  have h0 := hcr 0 (List.mem_range.mpr (by omega))
  have hd : decide (b.width / 2 ≤ 0) = false := by
    rw [decide_eq_false_iff_not]
    omega
  rw [hd, Bool.false_or, Bool.and_eq_true] at h0
  obtain ⟨hrows, hcols⟩ := h0
  rw [List.all_eq_true] at hrows hcols
  intro x y hal
  have hbnd := Board.get_cell_bounds hal
  have hyW : y < b.width := by omega
  have h1 : ¬(b.get_cell x 0 = some CellState.Alive) ∧
      ¬(b.get_cell x (b.width - 1) = some CellState.Alive) := by
    have h := hrows x (List.mem_range.mpr (by omega))
    simpa [option_beq_some] using h
  have hy1 : 1 ≤ y := by
    by_contra hcon
    have hy0 : y = 0 := by omega
    exact h1.1 (hy0 ▸ hal)
  have hy2 : y + 1 < b.width := by
    by_contra hcon
    have hyw : y = b.width - 1 := by omega
    exact h1.2 (hyw ▸ hal)
  have h2 : ¬(b.get_cell 0 y = some CellState.Alive) ∧
      ¬(b.get_cell (b.width - 1) y = some CellState.Alive) := by
    have h := hcols (y - 1) (List.mem_range.mpr (by omega))
    have hyy : 0 + 1 + (y - 1) = y := by omega
    rw [hyy] at h
    simpa [option_beq_some] using h
  have hx1 : 1 ≤ x := by
    by_contra hcon
    have hx0 : x = 0 := by omega
    exact h2.1 (hx0 ▸ hal)
  have hx2 : x + 1 < b.width := by
    by_contra hcon
    have hxw : x = b.width - 1 := by omega
    exact h2.2 (hxw ▸ hal)
  exact ⟨hx1, hx2, hy1, hy2⟩

/-- The non-terminating family of source runs: once the square has side ≤ 2 and
its ring is still "removable" (only possible with margin 0 on an all-Dead 2×2),
`remove_outer_ring` returns its input and the loop never exits; with fuel this
yields `none` for every fuel. -/
theorem shrinkGo_small_none (m : Nat) (b : Board) (h2 : b.width ≤ 2)
    (hcr : b.can_remove_outer_ring m = true) : ∀ fuel, shrinkGo m fuel b = none := by
  have hlt := can_remove_outer_ring_lt b m hcr
  intro fuel
  induction fuel with
  | zero => rfl
  | succ n ih =>
      show shrinkGo m (n + 1) b = none
      simp only [shrinkGo]
      rw [if_pos hcr, remove_outer_ring_small b h2]
      rw [if_neg (by omega)]
      rw [ih]

/-- Full description of the ring-removal loop on a square input when it
returns: the result is square, it stopped because it reached the minimal side
or because no further ring is removable, `flag = false` means nothing was
removed, and `flag = true` exhibits the number `k ≥ 1` of removed rings — the
result is the input shifted by `(k, k)`, and every Alive cell of the input
lay strictly inside the `k` removed rings' complement. -/
theorem shrinkGo_spec (m : Nat) :
    ∀ (fuel : Nat) (b r : Board) (flag : Bool), b.width = b.height →
      shrinkGo m fuel b = some (r, flag) →
      r.width = r.height ∧
      (r.width ≤ 2 * m + 1 ∨ r.can_remove_outer_ring m = false) ∧
      (flag = false → r = b) ∧
      (flag = true → ∃ k, 1 ≤ k ∧ 2 * k ≤ b.width ∧ r.width = b.width - 2 * k ∧
        (∀ x y, x < r.width → y < r.height → r.get_cell x y = b.get_cell (x + k) (y + k)) ∧
        (∀ x y, b.get_cell x y = some CellState.Alive →
          k ≤ x ∧ x + k < b.width ∧ k ≤ y ∧ y + k < b.width)) := by
  intro fuel
  induction fuel with
  | zero =>
      intro b r flag hsq h
      exact Option.noConfusion h
  | succ n ih =>
      intro b r flag hsq h
      simp only [shrinkGo] at h
      by_cases hcr : b.can_remove_outer_ring m = true
      · rw [if_pos hcr] at h
        by_cases h2 : b.width ≤ 2
        · rw [remove_outer_ring_small b h2] at h
          have hlt := can_remove_outer_ring_lt b m hcr
          rw [if_neg (by omega)] at h
          rw [shrinkGo_small_none m b h2 hcr n] at h
          exact Option.noConfusion h
        · have h3 : 2 < b.width := by omega
          have hlt := can_remove_outer_ring_lt b m hcr
          obtain ⟨hb2w, hb2h⟩ := remove_outer_ring_dims b h3
          have hring := can_remove_outer_ring_facts b m hsq hcr
          by_cases hsm : b.remove_outer_ring.width ≤ 2 * m + 1
          · rw [if_pos hsm] at h
            have hp := Option.some.inj h
            have hpr : b.remove_outer_ring = r := (Prod.ext_iff.mp hp).1
            have hfl : true = flag := (Prod.ext_iff.mp hp).2
            subst hpr
            refine ⟨by rw [hb2w, hb2h], Or.inl hsm, ?_, ?_⟩
            · intro hff; rw [← hfl] at hff; exact Bool.noConfusion hff
            · intro _
              refine ⟨1, le_refl 1, by omega, by omega, ?_, ?_⟩
              · intro x y hx hy
                rw [hb2w] at hx
                rw [hb2h] at hy
                have hc := get_remove_outer_ring b hsq h3 x y hx hy
                simpa using hc
              · intro x y hal
                have hr := hring x y hal
                omega
          · rw [if_neg hsm] at h
            cases hrec : shrinkGo m n b.remove_outer_ring with
            | none =>
                rw [hrec] at h
                exact Option.noConfusion h
            | some pr =>
                obtain ⟨r2, fl2⟩ := pr
                rw [hrec] at h
                have hp := Option.some.inj h
                have hpr : r2 = r := (Prod.ext_iff.mp hp).1
                have hfl : true = flag := (Prod.ext_iff.mp hp).2
                subst hpr
                have hsq2 : b.remove_outer_ring.width = b.remove_outer_ring.height := by
                  rw [hb2w, hb2h]
                obtain ⟨ihsq, ihexit, ihfalse, ihtrue⟩ := ih b.remove_outer_ring r2 fl2 hsq2 hrec
                refine ⟨ihsq, ihexit, ?_, ?_⟩
                · intro hff; rw [← hfl] at hff; exact Bool.noConfusion hff
                · intro _
                  cases fl2 with
                  | false =>
                      have hr2 := ihfalse rfl
                      subst hr2
                      refine ⟨1, le_refl 1, by omega, by rw [hb2w], ?_, ?_⟩
                      · intro x y hx hy
                        rw [hb2w] at hx
                        rw [hb2h] at hy
                        exact get_remove_outer_ring b hsq h3 x y hx hy
                      · intro x y hal
                        have hr := hring x y hal
                        omega
                  | true =>
                      obtain ⟨k2, hk1, hk2, hkw, hcont2, halive2⟩ := ihtrue rfl
                      rw [hb2w] at hk2 hkw
                      refine ⟨k2 + 1, by omega, by omega, by omega, ?_, ?_⟩
                      · intro x y hx hy
                        have hx2 : x + k2 < b.width - 2 := by omega
                        have hy2 : y + k2 < b.width - 2 := by
                          have hyx : y < r2.width := by rw [ihsq]; exact hy
                          omega
                        have hc1 := hcont2 x y hx hy
                        have hc2 := get_remove_outer_ring b hsq h3 (x + k2) (y + k2) hx2 hy2
                        rw [hc1, hc2]
                        have e1 : x + k2 + 1 = x + (k2 + 1) := by omega
                        have e2 : y + k2 + 1 = y + (k2 + 1) := by omega
                        rw [e1, e2]
                      · intro x y hal
                        have hr := hring x y hal
                        have hx2 : x - 1 < b.width - 2 := by omega
                        have hy2 : y - 1 < b.width - 2 := by omega
                        have hc2 := get_remove_outer_ring b hsq h3 (x - 1) (y - 1) hx2 hy2
                        have e1 : x - 1 + 1 = x := by omega
                        have e2 : y - 1 + 1 = y := by omega
                        rw [e1, e2] at hc2
                        rw [← hc2] at hal
                        have hs := halive2 (x - 1) (y - 1) hal
                        rw [hb2w] at hs
                        omega
      · rw [if_neg hcr] at h
        have hp := Option.some.inj h
        have hpr : b = r := (Prod.ext_iff.mp hp).1
        have hfl : false = flag := (Prod.ext_iff.mp hp).2
        subst hpr
        refine ⟨hsq, Or.inr ?_, fun _ => rfl, ?_⟩
        · cases hcc : b.can_remove_outer_ring m with
          | false => rfl
          | true => exact absurd hcc hcr
        · intro htt; rw [← hfl] at htt; exact Bool.noConfusion htt

theorem optimize_size_stuck_none (b : Board) (m : Nat)
    (hcf : (b.resize_to_square (min b.width b.height)).can_remove_outer_ring m = false) :
    b.optimize_size m = none := by
  simp only [Board.optimize_size]
  by_cases hmin : min b.width b.height ≤ 2 * m + 1
  · rw [if_pos hmin]
  · rw [if_neg hmin]
    have hstep : shrinkGo m (min b.width b.height + 1)
        (b.resize_to_square (min b.width b.height)) =
        some (b.resize_to_square (min b.width b.height), false) := by
      simp only [shrinkGo, hcf, Bool.false_eq_true, if_false]
    rw [hstep]

theorem optimize_size_some_facts (b : Board) (m : Nat) (r : Board)
    (h : b.optimize_size m = some r) :
    2 * m + 1 < min b.width b.height ∧ r.width = r.height ∧
    (r.width ≤ 2 * m + 1 ∨ r.can_remove_outer_ring m = false) ∧
    ∃ k, 1 ≤ k ∧ 2 * k ≤ min b.width b.height ∧
      r.width = min b.width b.height - 2 * k ∧
      (∀ x y, x < r.width → y < r.height →
        r.get_cell x y =
          (b.resize_to_square (min b.width b.height)).get_cell (x + k) (y + k)) ∧
      (∀ x y,
        (b.resize_to_square (min b.width b.height)).get_cell x y = some CellState.Alive →
        k ≤ x ∧ x + k < min b.width b.height ∧ k ≤ y ∧ y + k < min b.width b.height) := by
  simp only [Board.optimize_size] at h
  by_cases hmin : min b.width b.height ≤ 2 * m + 1
  · rw [if_pos hmin] at h
    exact Option.noConfusion h
  · rw [if_neg hmin] at h
    have hsqw : (b.resize_to_square (min b.width b.height)).width = min b.width b.height :=
      Board.resize_to_width b _ _
    have hsqh : (b.resize_to_square (min b.width b.height)).height = min b.width b.height :=
      Board.resize_to_height b _ _
    cases hgo : shrinkGo m (min b.width b.height + 1)
        (b.resize_to_square (min b.width b.height)) with
    | none =>
        rw [hgo] at h
        exact Option.noConfusion h
    | some pr =>
        obtain ⟨r2, fl⟩ := pr
        rw [hgo] at h
        cases fl with
        | false => exact Option.noConfusion h
        | true =>
            have hrr : r2 = r := Option.some.inj h
            subst hrr
            obtain ⟨hsq1, hexit, -, htrue⟩ := shrinkGo_spec m (min b.width b.height + 1)
              (b.resize_to_square (min b.width b.height)) r2 true (by rw [hsqw, hsqh]) hgo
            obtain ⟨k, hk1, hk2, hkw, hcont, halive⟩ := htrue rfl
            rw [hsqw] at hk2 hkw
            refine ⟨by omega, hsq1, hexit, k, hk1, hk2, hkw, hcont, ?_⟩
            intro x y hal
            have hs := halive x y hal
            rw [hsqw] at hs
            exact hs

/-- C2 (amended): `optimize_size` is centred ring removal, not the
bounding-box derivation.  It produces no result when the smaller dimension is
already at most `2·margin + 1`, and no result when the outer `margin + 1`
layers of the centred square crop hold an Alive cell (no ring removable) —
even if the bounding box of Alive cells would allow a shrink.  When it does
produce a result, the result is the centred square crop (side
`min(width, height)`) with `k ≥ 1` outer rings removed: every cell of the
result is the crop's cell shifted by `(k, k)`, and every Alive cell of the
crop lies at distance at least `k` from the crop's border, so all Alive cells
are preserved. -/
theorem C2_optimize_is_ring_removal (b : Board) (m : Nat) :
    (min b.width b.height ≤ 2 * m + 1 → b.optimize_size m = none) ∧
    ((b.resize_to_square (min b.width b.height)).can_remove_outer_ring m = false →
      b.optimize_size m = none) ∧
    (∀ r, b.optimize_size m = some r →
      ∃ k, 1 ≤ k ∧ 2 * k ≤ min b.width b.height ∧
        r.width = min b.width b.height - 2 * k ∧
        r.height = min b.width b.height - 2 * k ∧
        (∀ x y, x < r.width → y < r.height →
          r.get_cell x y =
            (b.resize_to_square (min b.width b.height)).get_cell (x + k) (y + k)) ∧
        (∀ x y,
          (b.resize_to_square (min b.width b.height)).get_cell x y = some CellState.Alive →
          k ≤ x ∧ x + k < min b.width b.height ∧ k ≤ y ∧
            y + k < min b.width b.height)) := by
  refine ⟨optimize_size_minimal_none b m, optimize_size_stuck_none b m, ?_⟩
  intro r h
  obtain ⟨-, hsq1, -, k, hk1, hk2, hkw, hcont, halive⟩ := optimize_size_some_facts b m r h
  exact ⟨k, hk1, hk2, hkw, by omega, hcont, halive⟩

set_option maxRecDepth 8192 in
/-- C2 counterexample: on the 5×5 board with one Alive corner cell and margin
0, the source's `optimize_size` returns no result (the Alive cell sits on the
outer ring), while the spec's bounding-box derivation returns a 1×1 board — a
shrink IS possible in the claim's sense, so the claim's equivalence fails at
this input. -/
theorem C2_counterexample : b5cex.optimize_size 0 ≠ optimizeSizeSpec b5cex 0 := by
  decide

set_option maxRecDepth 8192 in
/-- C2 witness: optimizing the 5×5 centre-cell board with margin 0 removes
two rings, yielding the 1×1 Alive board. -/
theorem C2_optimize_is_ring_removal_witness :
    ∃ k, 1 ≤ k ∧ 2 * k ≤ min bC2w.width bC2w.height ∧
      rC2w.width = min bC2w.width bC2w.height - 2 * k ∧
      rC2w.height = min bC2w.width bC2w.height - 2 * k ∧
      (∀ x y, x < rC2w.width → y < rC2w.height →
        rC2w.get_cell x y =
          (bC2w.resize_to_square (min bC2w.width bC2w.height)).get_cell (x + k) (y + k)) ∧
      (∀ x y,
        (bC2w.resize_to_square (min bC2w.width bC2w.height)).get_cell x y =
            some CellState.Alive →
        k ≤ x ∧ x + k < min bC2w.width bC2w.height ∧ k ≤ y ∧
          y + k < min bC2w.width bC2w.height) :=
  (C2_optimize_is_ring_removal bC2w 0).2.2 rC2w (by decide)

/-- C7: a produced optimization result never exceeds the input's dimensions,
and re-optimizing the result with the same margin produces no result. -/
theorem C7_optimize_monotone_idempotent (b : Board) (m : Nat) (r : Board)
    (h : b.optimize_size m = some r) :
    r.width ≤ b.width ∧ r.height ≤ b.height ∧ r.optimize_size m = none := by
  obtain ⟨hmin, hsq1, hexit, k, hk1, hk2, hkw, -, -⟩ := optimize_size_some_facts b m r h
  refine ⟨by omega, by omega, ?_⟩
  rcases hexit with hle | hcf
  · exact optimize_size_minimal_none r m (by omega)
  · by_cases hle2 : min r.width r.height ≤ 2 * m + 1
    · exact optimize_size_minimal_none r m hle2
    · apply optimize_size_stuck_none r m
      have hmins : min r.width r.height = r.width := by omega
      have hrs : r.resize_to_square (min r.width r.height) = r := by
        rw [hmins, Board.resize_to_square]
        nth_rewrite 2 [hsq1]
        exact Board.resize_self r
      rw [hrs]
      exact hcf

set_option maxRecDepth 8192 in
/-- C7 witness: optimizing the 5×5 centre-cell board with margin 1 yields the
3×3 centre-cell board, which is no larger and re-optimizes to no result. -/
theorem C7_optimize_monotone_idempotent_witness :
    rC7w.width ≤ bC2w.width ∧ rC7w.height ≤ bC2w.height ∧ rC7w.optimize_size 1 = none :=
  C7_optimize_monotone_idempotent bC2w 1 rC7w (by decide)

/-! ### Claim C6 -/

theorem continue_drag_mgr (m : CellStateManager) (b : Board) (x y : Nat) :
    (m.continue_drag b x y).1 = m ∨
    (m.continue_drag b x y).1 =
      { drag_state := { m.drag_state with last_cell := some (x, y) } } := by
  unfold CellStateManager.continue_drag
  repeat' split
  all_goals first
  | exact Or.inl rfl
  | exact Or.inr rfl

theorem continue_drag_is_dragging (m : CellStateManager) (b : Board) (x y : Nat) :
    ((m.continue_drag b x y).1).drag_state.is_dragging = m.drag_state.is_dragging := by
  rcases continue_drag_mgr m b x y with h | h <;> rw [h]

theorem continue_drag_drag_action (m : CellStateManager) (b : Board) (x y : Nat) :
    ((m.continue_drag b x y).1).drag_state.drag_action = m.drag_state.drag_action := by
  rcases continue_drag_mgr m b x y with h | h <;> rw [h]

theorem continue_drag_board_create (m : CellStateManager) (b : Board) (x y : Nat)
    (hact : m.drag_state.drag_action = some DragAction.CreateCell) :
    (m.continue_drag b x y).2.1 = b ∨
    (m.continue_drag b x y).2.1 = (b.set_cell x y CellState.Alive).1 := by
  unfold CellStateManager.continue_drag
  simp only [hact]
  repeat' split
  all_goals first
  | exact Or.inl rfl
  | exact Or.inr rfl

theorem continue_drag_board_kill (m : CellStateManager) (b : Board) (x y : Nat)
    (hact : m.drag_state.drag_action = some DragAction.KillCell) :
    (m.continue_drag b x y).2.1 = b ∨
    (m.continue_drag b x y).2.1 = (b.set_cell x y CellState.Dead).1 := by
  unfold CellStateManager.continue_drag
  simp only [hact]
  repeat' split
  all_goals first
  | exact Or.inl rfl
  | exact Or.inr rfl

theorem continue_drag_create_mono (m : CellStateManager) (b : Board) (x y : Nat)
    (hact : m.drag_state.drag_action = some DragAction.CreateCell) (u v : Nat)
    (hal : b.get_cell u v = some CellState.Alive) :
    (m.continue_drag b x y).2.1.get_cell u v = some CellState.Alive := by
  rcases continue_drag_board_create m b x y hact with h | h <;> rw [h]
  · exact hal
  · rw [Board.get_set]
    by_cases hc : u = x ∧ v = y ∧ x < b.width ∧ y < b.height
    · rw [if_pos hc]
    · rw [if_neg hc]; exact hal

theorem continue_drag_kill_mono (m : CellStateManager) (b : Board) (x y : Nat)
    (hact : m.drag_state.drag_action = some DragAction.KillCell) (u v : Nat)
    (hal : b.get_cell u v = some CellState.Dead) :
    (m.continue_drag b x y).2.1.get_cell u v = some CellState.Dead := by
  rcases continue_drag_board_kill m b x y hact with h | h <;> rw [h]
  · exact hal
  · rw [Board.get_set]
    by_cases hc : u = x ∧ v = y ∧ x < b.width ∧ y < b.height
    · rw [if_pos hc]
    · rw [if_neg hc]; exact hal

theorem continue_drag_dims (m : CellStateManager) (b : Board) (x y : Nat) :
    (m.continue_drag b x y).2.1.width = b.width ∧
    (m.continue_drag b x y).2.1.height = b.height := by
  unfold CellStateManager.continue_drag
  repeat' split
  all_goals first
  | exact ⟨rfl, rfl⟩
  | exact ⟨Board.set_cell_width .., Board.set_cell_height ..⟩

theorem continue_drag_create_touch (m : CellStateManager) (b : Board) (x y : Nat)
    (hdrag : m.drag_state.is_dragging = true)
    (hact : m.drag_state.drag_action = some DragAction.CreateCell)
    (hx : x < b.width) (hy : y < b.height)
    (hlast : ∀ lc, m.drag_state.last_cell = some lc →
      b.get_cell lc.1 lc.2 = some CellState.Alive) :
    (m.continue_drag b x y).2.1.get_cell x y = some CellState.Alive ∧
    (∀ lc, ((m.continue_drag b x y).1).drag_state.last_cell = some lc →
      (m.continue_drag b x y).2.1.get_cell lc.1 lc.2 = some CellState.Alive) := by
  obtain ⟨c, hc⟩ := Board.get_cell_isSome hx hy
  unfold CellStateManager.continue_drag
  simp only [hdrag, Bool.not_true, Bool.false_eq_true, if_false]
  by_cases hnew : m.drag_state.is_new_cell (x, y) = true
  · simp only [hnew, Bool.not_true, Bool.false_eq_true, if_false, hact, hc]
    by_cases hcd : c = CellState.Dead
    · rw [if_pos hcd]
      have hset : (b.set_cell x y CellState.Alive).1.get_cell x y = some CellState.Alive := by
        rw [Board.get_set, if_pos ⟨rfl, rfl, hx, hy⟩]
      refine ⟨hset, ?_⟩
      intro lc hlc
      have hlcx : lc = (x, y) := (Option.some.inj hlc).symm
      rw [hlcx]
      exact hset
    · have hca : c = CellState.Alive := by
        cases c with
        | Dead => exact absurd rfl hcd
        | Alive => rfl
      rw [if_neg hcd]
      have hself : b.get_cell x y = some CellState.Alive := by rw [hc, hca]
      refine ⟨hself, ?_⟩
      intro lc hlc
      have hlcx : lc = (x, y) := (Option.some.inj hlc).symm
      rw [hlcx]
      exact hself
  · have hnf : m.drag_state.is_new_cell (x, y) = false := by
      cases hb2 : m.drag_state.is_new_cell (x, y)
      · rfl
      · exact absurd hb2 hnew
    simp only [hnf, Bool.not_false, if_true]
    cases hl : m.drag_state.last_cell with
    | none =>
        exfalso
        apply hnew
        rw [DragState.is_new_cell, hl]
    | some last =>
        have hlx : last = (x, y) := by
          have h2 : decide (last ≠ (x, y)) = false := by
            have h3 := hnf
            rw [DragState.is_new_cell, hl] at h3
            exact h3
          rw [decide_eq_false_iff_not] at h2
          exact not_not.mp h2
        have halx : b.get_cell x y = some CellState.Alive := by
          have := hlast last hl
          rw [hlx] at this
          exact this
        refine ⟨halx, ?_⟩
        intro lc hlc
        have hll : last = lc := Option.some.inj hlc
        rw [← hll]
        exact hlast last hl

theorem continue_drag_kill_touch (m : CellStateManager) (b : Board) (x y : Nat)
    (hdrag : m.drag_state.is_dragging = true)
    (hact : m.drag_state.drag_action = some DragAction.KillCell)
    (hx : x < b.width) (hy : y < b.height)
    (hlast : ∀ lc, m.drag_state.last_cell = some lc →
      b.get_cell lc.1 lc.2 = some CellState.Dead) :
    (m.continue_drag b x y).2.1.get_cell x y = some CellState.Dead ∧
    (∀ lc, ((m.continue_drag b x y).1).drag_state.last_cell = some lc →
      (m.continue_drag b x y).2.1.get_cell lc.1 lc.2 = some CellState.Dead) := by
  obtain ⟨c, hc⟩ := Board.get_cell_isSome hx hy
  unfold CellStateManager.continue_drag
  simp only [hdrag, Bool.not_true, Bool.false_eq_true, if_false]
  by_cases hnew : m.drag_state.is_new_cell (x, y) = true
  · simp only [hnew, Bool.not_true, Bool.false_eq_true, if_false, hact, hc]
    by_cases hca : c = CellState.Alive
    · rw [if_pos hca]
      have hset : (b.set_cell x y CellState.Dead).1.get_cell x y = some CellState.Dead := by
        rw [Board.get_set, if_pos ⟨rfl, rfl, hx, hy⟩]
      refine ⟨hset, ?_⟩
      intro lc hlc
      have hlcx : lc = (x, y) := (Option.some.inj hlc).symm
      rw [hlcx]
      exact hset
    · have hcd : c = CellState.Dead := by
        cases c with
        | Dead => rfl
        | Alive => exact absurd rfl hca
      rw [if_neg hca]
      have hself : b.get_cell x y = some CellState.Dead := by rw [hc, hcd]
      refine ⟨hself, ?_⟩
      intro lc hlc
      have hlcx : lc = (x, y) := (Option.some.inj hlc).symm
      rw [hlcx]
      exact hself
  · have hnf : m.drag_state.is_new_cell (x, y) = false := by
      cases hb2 : m.drag_state.is_new_cell (x, y)
      · rfl
      · exact absurd hb2 hnew
    simp only [hnf, Bool.not_false, if_true]
    cases hl : m.drag_state.last_cell with
    | none =>
        exfalso
        apply hnew
        rw [DragState.is_new_cell, hl]
    | some last =>
        have hlx : last = (x, y) := by
          have h2 : decide (last ≠ (x, y)) = false := by
            have h3 := hnf
            rw [DragState.is_new_cell, hl] at h3
            exact h3
          rw [decide_eq_false_iff_not] at h2
          exact not_not.mp h2
        have halx : b.get_cell x y = some CellState.Dead := by
          have := hlast last hl
          rw [hlx] at this
          exact this
        refine ⟨halx, ?_⟩
        intro lc hlc
        have hll : last = lc := Option.some.inj hlc
        rw [← hll]
        exact hlast last hl

theorem runDrags_create :
    ∀ (ps : List (Nat × Nat)) (m : CellStateManager) (b0 b : Board),
      m.drag_state.is_dragging = true →
      m.drag_state.drag_action = some DragAction.CreateCell →
      b.width = b0.width → b.height = b0.height →
      (∀ lc, m.drag_state.last_cell = some lc →
        b.get_cell lc.1 lc.2 = some CellState.Alive) →
      (∀ p ∈ ps, p.1 < b0.width ∧ p.2 < b0.height) →
      ((∀ u v, b.get_cell u v = some CellState.Alive →
          (runDrags (m, b) ps).2.get_cell u v = some CellState.Alive) ∧
       (∀ p ∈ ps, (runDrags (m, b) ps).2.get_cell p.1 p.2 = some CellState.Alive)) := by
  intro ps
  induction ps with
  | nil =>
      intro m b0 b _ _ _ _ _ _
      exact ⟨fun u v h => h, fun p hp => absurd hp (List.not_mem_nil p)⟩
  | cons p t ih =>
      intro m b0 b hdrag hact hw hh hlast hin
      have hstep : runDrags (m, b) (p :: t) =
          runDrags ((m.continue_drag b p.1 p.2).1, (m.continue_drag b p.1 p.2).2.1) t := rfl
      have hpx : p.1 < b.width := by rw [hw]; exact (hin p (List.mem_cons_self p t)).1
      have hpy : p.2 < b.height := by rw [hh]; exact (hin p (List.mem_cons_self p t)).2
      obtain ⟨htouch, hlast2⟩ :=
        continue_drag_create_touch m b p.1 p.2 hdrag hact hpx hpy hlast
      obtain ⟨hdw, hdh⟩ := continue_drag_dims m b p.1 p.2
      have hdrag2 : ((m.continue_drag b p.1 p.2).1).drag_state.is_dragging = true := by
        rw [continue_drag_is_dragging]; exact hdrag
      have hact2 : ((m.continue_drag b p.1 p.2).1).drag_state.drag_action =
          some DragAction.CreateCell := by
        rw [continue_drag_drag_action]; exact hact
      obtain ⟨ihmono, ihtouch⟩ := ih (m.continue_drag b p.1 p.2).1 b0
        (m.continue_drag b p.1 p.2).2.1 hdrag2 hact2 (by rw [hdw]; exact hw)
        (by rw [hdh]; exact hh) hlast2 (fun q hq => hin q (List.mem_cons_of_mem p hq))
      rw [hstep]
      constructor
      · intro u v hal
        exact ihmono u v (continue_drag_create_mono m b p.1 p.2 hact u v hal)
      · intro q hq
        rcases List.mem_cons.mp hq with hq1 | hq2
        · subst hq1
          exact ihmono q.1 q.2 htouch
        · exact ihtouch q hq2

theorem runDrags_kill :
    ∀ (ps : List (Nat × Nat)) (m : CellStateManager) (b0 b : Board),
      m.drag_state.is_dragging = true →
      m.drag_state.drag_action = some DragAction.KillCell →
      b.width = b0.width → b.height = b0.height →
      (∀ lc, m.drag_state.last_cell = some lc →
        b.get_cell lc.1 lc.2 = some CellState.Dead) →
      (∀ p ∈ ps, p.1 < b0.width ∧ p.2 < b0.height) →
      ((∀ u v, b.get_cell u v = some CellState.Dead →
          (runDrags (m, b) ps).2.get_cell u v = some CellState.Dead) ∧
       (∀ p ∈ ps, (runDrags (m, b) ps).2.get_cell p.1 p.2 = some CellState.Dead)) := by
  intro ps
  induction ps with
  | nil =>
      intro m b0 b _ _ _ _ _ _
      exact ⟨fun u v h => h, fun p hp => absurd hp (List.not_mem_nil p)⟩
  | cons p t ih =>
      intro m b0 b hdrag hact hw hh hlast hin
      have hstep : runDrags (m, b) (p :: t) =
          runDrags ((m.continue_drag b p.1 p.2).1, (m.continue_drag b p.1 p.2).2.1) t := rfl
      have hpx : p.1 < b.width := by rw [hw]; exact (hin p (List.mem_cons_self p t)).1
      have hpy : p.2 < b.height := by rw [hh]; exact (hin p (List.mem_cons_self p t)).2
      obtain ⟨htouch, hlast2⟩ :=
        continue_drag_kill_touch m b p.1 p.2 hdrag hact hpx hpy hlast
      obtain ⟨hdw, hdh⟩ := continue_drag_dims m b p.1 p.2
      have hdrag2 : ((m.continue_drag b p.1 p.2).1).drag_state.is_dragging = true := by
        rw [continue_drag_is_dragging]; exact hdrag
      have hact2 : ((m.continue_drag b p.1 p.2).1).drag_state.drag_action =
          some DragAction.KillCell := by
        rw [continue_drag_drag_action]; exact hact
      obtain ⟨ihmono, ihtouch⟩ := ih (m.continue_drag b p.1 p.2).1 b0
        (m.continue_drag b p.1 p.2).2.1 hdrag2 hact2 (by rw [hdw]; exact hw)
        (by rw [hdh]; exact hh) hlast2 (fun q hq => hin q (List.mem_cons_of_mem p hq))
      rw [hstep]
      constructor
      · intro u v hal
        exact ihmono u v (continue_drag_kill_mono m b p.1 p.2 hact u v hal)
      · intro q hq
        rcases List.mem_cons.mp hq with hq1 | hq2
        · subst hq1
          exact ihmono q.1 q.2 htouch
        · exact ihtouch q hq2

theorem start_drag_dead (m0 : CellStateManager) (b : Board) (x y : Nat)
    (hc : b.get_cell x y = some CellState.Dead) :
    (m0.start_drag b x y).1 =
      { drag_state :=
          { is_dragging := true, drag_action := some DragAction.CreateCell, last_cell := some (x, y) } } ∧
    (m0.start_drag b x y).2.1 = (b.set_cell x y CellState.Alive).1 := by
  unfold CellStateManager.start_drag Board.toggle_cell
  simp only [hc]
  exact ⟨by trivial, by trivial⟩

theorem start_drag_alive (m0 : CellStateManager) (b : Board) (x y : Nat)
    (hc : b.get_cell x y = some CellState.Alive) :
    (m0.start_drag b x y).1 =
      { drag_state :=
          { is_dragging := true, drag_action := some DragAction.KillCell, last_cell := some (x, y) } } ∧
    (m0.start_drag b x y).2.1 = (b.set_cell x y CellState.Dead).1 := by
  unfold CellStateManager.start_drag Board.toggle_cell
  simp only [hc]
  exact ⟨by trivial, by trivial⟩

/-- C6: a drag started on a Dead cell fixes the `CreateCell` action: after any
sequence of `continue_drag` calls on in-bounds cells, the start cell and every
dragged-over cell is Alive, and no cell anywhere moved from Alive to Dead;
symmetrically, a drag started on an Alive cell fixes `KillCell`: every touched
cell ends Dead and no cell moved from Dead to Alive. -/
theorem C6_drag_gesture (m0 : CellStateManager) (b : Board) (x y : Nat)
    (ps : List (Nat × Nat)) (hin : ∀ p ∈ ps, p.1 < b.width ∧ p.2 < b.height) :
    (b.get_cell x y = some CellState.Dead →
      (runDrags ((m0.start_drag b x y).1, (m0.start_drag b x y).2.1) ps).2.get_cell x y =
          some CellState.Alive ∧
      (∀ p ∈ ps,
        (runDrags ((m0.start_drag b x y).1, (m0.start_drag b x y).2.1) ps).2.get_cell p.1 p.2 =
          some CellState.Alive) ∧
      (∀ u v, b.get_cell u v = some CellState.Alive →
        (runDrags ((m0.start_drag b x y).1, (m0.start_drag b x y).2.1) ps).2.get_cell u v =
          some CellState.Alive)) ∧
    (b.get_cell x y = some CellState.Alive →
      (runDrags ((m0.start_drag b x y).1, (m0.start_drag b x y).2.1) ps).2.get_cell x y =
          some CellState.Dead ∧
      (∀ p ∈ ps,
        (runDrags ((m0.start_drag b x y).1, (m0.start_drag b x y).2.1) ps).2.get_cell p.1 p.2 =
          some CellState.Dead) ∧
      (∀ u v, b.get_cell u v = some CellState.Dead →
        (runDrags ((m0.start_drag b x y).1, (m0.start_drag b x y).2.1) ps).2.get_cell u v =
          some CellState.Dead)) := by
  constructor
  · intro hc
    have hbnd := Board.get_cell_bounds hc
    obtain ⟨hm1, hb1⟩ := start_drag_dead m0 b x y hc
    rw [hm1, hb1]
    have hb1get : (b.set_cell x y CellState.Alive).1.get_cell x y = some CellState.Alive := by
      rw [Board.get_set, if_pos ⟨rfl, rfl, hbnd.1, hbnd.2⟩]
    have hlast : ∀ lc,
        ({ drag_state :=
            { is_dragging := true, drag_action := some DragAction.CreateCell, last_cell := some (x, y) } } :
          CellStateManager).drag_state.last_cell = some lc →
        (b.set_cell x y CellState.Alive).1.get_cell lc.1 lc.2 = some CellState.Alive := by
      intro lc hlc
      have hlcx : lc = (x, y) := (Option.some.inj hlc).symm
      rw [hlcx]
      exact hb1get
    obtain ⟨hmono, htouch⟩ := runDrags_create ps
      { drag_state :=
          { is_dragging := true, drag_action := some DragAction.CreateCell, last_cell := some (x, y) } } b (b.set_cell x y CellState.Alive).1 rfl rfl
      (Board.set_cell_width b x y CellState.Alive) (Board.set_cell_height b x y CellState.Alive)
      hlast hin
    refine ⟨hmono x y hb1get, htouch, ?_⟩
    intro u v hal
    apply hmono
    rw [Board.get_set]
    by_cases hcase : u = x ∧ v = y ∧ x < b.width ∧ y < b.height
    · rw [if_pos hcase]
    · rw [if_neg hcase]; exact hal
  · intro hc
    have hbnd := Board.get_cell_bounds hc
    obtain ⟨hm1, hb1⟩ := start_drag_alive m0 b x y hc
    rw [hm1, hb1]
    have hb1get : (b.set_cell x y CellState.Dead).1.get_cell x y = some CellState.Dead := by
      rw [Board.get_set, if_pos ⟨rfl, rfl, hbnd.1, hbnd.2⟩]
    have hlast : ∀ lc,
        ({ drag_state :=
            { is_dragging := true, drag_action := some DragAction.KillCell, last_cell := some (x, y) } } :
          CellStateManager).drag_state.last_cell = some lc →
        (b.set_cell x y CellState.Dead).1.get_cell lc.1 lc.2 = some CellState.Dead := by
      intro lc hlc
      have hlcx : lc = (x, y) := (Option.some.inj hlc).symm
      rw [hlcx]
      exact hb1get
    obtain ⟨hmono, htouch⟩ := runDrags_kill ps
      { drag_state :=
          { is_dragging := true, drag_action := some DragAction.KillCell, last_cell := some (x, y) } } b (b.set_cell x y CellState.Dead).1 rfl rfl
      (Board.set_cell_width b x y CellState.Dead) (Board.set_cell_height b x y CellState.Dead)
      hlast hin
    refine ⟨hmono x y hb1get, htouch, ?_⟩
    intro u v hal
    apply hmono
    rw [Board.get_set]
    by_cases hcase : u = x ∧ v = y ∧ x < b.width ∧ y < b.height
    · rw [if_pos hcase]
    · rw [if_neg hcase]; exact hal

/-- C6 witness: on the blinker board, a drag started on the Dead cell `(0,0)`
and continued over `(0,2)` leaves `(0,0)` Alive, and a drag started on the
Alive cell `(1,1)` and continued over `(0,2)` leaves `(1,1)` Dead. -/
theorem C6_drag_gesture_witness :
    (runDrags ((CellStateManager.new.start_drag blinkerBoard 0 0).1,
        (CellStateManager.new.start_drag blinkerBoard 0 0).2.1) [(0, 2)]).2.get_cell 0 0 =
      some CellState.Alive ∧
    (runDrags ((CellStateManager.new.start_drag blinkerBoard 1 1).1,
        (CellStateManager.new.start_drag blinkerBoard 1 1).2.1) [(0, 2)]).2.get_cell 1 1 =
      some CellState.Dead :=
  ⟨((C6_drag_gesture CellStateManager.new blinkerBoard 0 0 [(0, 2)] (by decide)).1
      (by decide)).1,
   ((C6_drag_gesture CellStateManager.new blinkerBoard 1 1 [(0, 2)] (by decide)).2
      (by decide)).1⟩
